import Mathlib

/-!
Shallow embedding of the crun-vm OCI bundle transformation core, translated
from the Rust sources of the repository:

  * `src/commands/create/mod.rs`          (mount/device reclassification)
  * `src/commands/create/custom_opts.rs`  (custom option path remapping)
  * `src/commands/create/domain.rs`       (libvirt domain generation, XML merge)
  * `src/commands/create/first_boot.rs`   (cloud-init first-boot config)
  * `src/commands/create/runtime_env.rs`  (engine detection)
  * `src/util.rs`                         (single-file discovery)

Filesystem state (file metadata, directory listings, file contents) is passed
in explicitly as oracle functions, machine integers are modelled as `Nat`/`Int`
with the relevant `2 ^ 64` / `2 ^ 63` bounds made explicit, and fallible Rust
code returns `Except String`.
-/

set_option maxHeartbeats 1000000

namespace CrunVm

/-! ## Paths

`camino::Utf8PathBuf` paths are modelled as a flag recording absoluteness plus
the list of path components.  `clist` mirrors `Path::components()`, where an
absolute path yields a leading root component (rendered here as "/"); Rust's
component-wise `starts_with` / `strip_prefix` / `parent` / `file_name` / `join`
are defined against that component list.
-/

structure MPath where
  abs : Bool
  comps : List String
deriving DecidableEq, Repr, Inhabited

def absPath (cs : List String) : MPath := ⟨true, cs⟩

def relPath (cs : List String) : MPath := ⟨false, cs⟩

def MPath.clist (p : MPath) : List String :=
  (if p.abs then ["/"] else []) ++ p.comps

def MPath.startsWith (p q : MPath) : Bool :=
  q.clist.isPrefixOf p.clist

/-- `Path::strip_prefix`: drops the matched components, yielding a relative
path. -/
def MPath.stripPrefix? (p q : MPath) : Option MPath :=
  if q.clist.isPrefixOf p.clist then some ⟨false, p.clist.drop q.clist.length⟩
  else none

/-- `Path::parent`: `none` for the root path and for the empty path. -/
def MPath.parent? (p : MPath) : Option MPath :=
  match p.comps with
  | [] => none
  | _ :: _ => some ⟨p.abs, p.comps.dropLast⟩

def MPath.fileName? (p : MPath) : Option String := p.comps.getLast?

def MPath.join (p q : MPath) : MPath :=
  if q.abs then q else ⟨p.abs, p.comps ++ q.comps⟩

def MPath.render (p : MPath) : String :=
  (if p.abs then "/" else "") ++ String.intercalate "/" p.comps

/-! ## OCI mounts and the source file-type oracle -/

/-- Outcome of `std::fs::Metadata::file_type()` for a path. -/
inductive FType where
  | dir
  | file
  | blockDev
  | charDev
  | socket
  | fifo
deriving DecidableEq, Repr

/-- An entry of the OCI runtime spec's `mounts` list. -/
structure OciMount where
  destination : MPath
  typ : Option String
  source : Option MPath
  options : List String
deriving DecidableEq, Repr

structure VirtiofsMount where
  pathInContainer : MPath
  pathInGuest : MPath
deriving DecidableEq, Repr

structure BlockDeviceMount where
  format : String
  isRegularFile : Bool
  pathInContainer : MPath
  pathInGuest : MPath
  readonly : Bool
deriving DecidableEq, Repr

structure TmpfsMount where
  pathInGuest : MPath
deriving DecidableEq, Repr

structure Mounts where
  virtiofs : List VirtiofsMount
  tmpfs : List TmpfsMount
  blockDevice : List BlockDeviceMount
deriving DecidableEq, Repr

/-- `TARGETS_TO_IGNORE` from `set_up_mounts` in `src/commands/create/mod.rs`. -/
def targetsToIgnore : List MPath :=
  [absPath ["etc", "hostname"],
   absPath ["etc", "hosts"],
   absPath ["etc", "resolv.conf"],
   absPath ["proc"],
   absPath ["run", ".containerenv"],
   absPath ["run", "secrets"],
   absPath ["sys"],
   absPath ["sys", "fs", "cgroup"]]

def devPath : MPath := absPath ["dev"]

/-- The private container path `/crun-vm/mounts/virtiofs/{n}` (absolute, as in
the source). -/
def virtiofsContainerPath (n : Nat) : MPath :=
  absPath ["crun-vm", "mounts", "virtiofs", toString n]

/-- The private container path `crun-vm/mounts/block/{n}` (relative, as in the
source). -/
def blockContainerPath (n : Nat) : MPath :=
  relPath ["crun-vm", "mounts", "block", toString n]

/-- `set_up_mounts`, worker.  The Rust loop pushes onto growing vectors and
uses the vectors' current lengths as indices; here `v` and `b` carry those two
lengths and the processed suffix is consed in front, so the entry produced at
counter value `v` (resp. `b`) ends up at position `v` (resp. `b`) of the final
list, exactly as in the source.  `meta` is the `metadata()` oracle for mount
sources (`none` models a stat error). -/
def setUpMountsGo (meta : MPath → Option FType) :
    Nat → Nat → List OciMount → Except String (List OciMount × Mounts)
  | _, _, [] => .ok ([], ⟨[], [], []⟩)
  | v, b, m :: rest =>
    if m.destination ∈ targetsToIgnore then do
      let (ns, mts) ← setUpMountsGo meta v b rest
      .ok (m :: ns, mts)
    else
      match m.typ with
      | some "bind" =>
        match m.source with
        | none => .error "bind mount without source"
        | some src =>
          match meta src with
          | none => .error "failed to stat mount source"
          | some .dir =>
            if m.destination.startsWith devPath then do
              let (ns, mts) ← setUpMountsGo meta v b rest
              .ok (m :: ns, mts)
            else do
              let pc := virtiofsContainerPath v
              let (ns, mts) ← setUpMountsGo meta (v + 1) b rest
              .ok ({ m with destination := pc } :: ns,
                   { mts with virtiofs := ⟨pc, m.destination⟩ :: mts.virtiofs })
          | some .file => do
            let readonly := m.options.any fun o => o == "ro" || o == "readonly"
            let pc := blockContainerPath b
            let (ns, mts) ← setUpMountsGo meta v (b + 1) rest
            .ok ({ m with destination := pc } :: ns,
                 { mts with blockDevice :=
                     ⟨"raw", true, pc, m.destination, readonly⟩ :: mts.blockDevice })
          | some .blockDev => do
            let readonly := m.options.any fun o => o == "ro" || o == "readonly"
            let pc := blockContainerPath b
            let (ns, mts) ← setUpMountsGo meta v (b + 1) rest
            .ok ({ m with destination := pc } :: ns,
                 { mts with blockDevice :=
                     ⟨"raw", false, pc, m.destination, readonly⟩ :: mts.blockDevice })
          | some _ =>
            .error "can only bind mount regular files, directories, and block devices"
      | some "tmpfs" =>
        if m.destination.startsWith devPath then do
          let (ns, mts) ← setUpMountsGo meta v b rest
          .ok (m :: ns, mts)
        else do
          let (ns, mts) ← setUpMountsGo meta v b rest
          .ok (ns, { mts with tmpfs := ⟨m.destination⟩ :: mts.tmpfs })
      | _ => do
        let (ns, mts) ← setUpMountsGo meta v b rest
        .ok (m :: ns, mts)

/-- `set_up_mounts` from `src/commands/create/mod.rs`: reclassifies the spec's
OCI mounts, returning the rewritten OCI mount list together with the three
typed mount lists. -/
def setUpMounts (meta : MPath → Option FType) (ms : List OciMount) :
    Except String (List OciMount × Mounts) :=
  setUpMountsGo meta 0 0 ms

/-- The category `set_up_mounts` assigns to a single OCI mount (`none` when
the mount makes `set_up_mounts` fail).  This is the classification described
by the spec, adjusted to the source's actual `/dev` handling. -/
inductive MountClass where
  | ignored
  | passthrough
  | virtiofs
  | blockdev
  | tmpfs
deriving DecidableEq, Repr

def classifyMount (meta : MPath → Option FType) (m : OciMount) : Option MountClass :=
  if m.destination ∈ targetsToIgnore then some .ignored
  else
    match m.typ with
    | some "bind" =>
      match m.source with
      | none => none
      | some src =>
        match meta src with
        | none => none
        | some .dir =>
          if m.destination.startsWith devPath then some .passthrough
          else some .virtiofs
        | some .file => some .blockdev
        | some .blockDev => some .blockdev
        | some _ => none
    | some "tmpfs" =>
      if m.destination.startsWith devPath then some .passthrough
      else some .tmpfs
    | _ => some .passthrough

def countClass (meta : MPath → Option FType) (c : MountClass) (ms : List OciMount) : Nat :=
  (ms.filter fun m => classifyMount meta m == some c).length

/-- The invariant carried through `setUpMountsGo`: totality of classification,
length accounting, passthrough of ignore-listed mounts, category counts, and
the shape/membership of the redirected virtiofs and block-device mounts. -/
def GoSpec (meta : MPath → Option FType) (ms : List OciMount) (v b : Nat)
    (newMs : List OciMount) (mts : Mounts) : Prop :=
  (∀ m ∈ ms, (classifyMount meta m).isSome) ∧
  newMs.length + mts.tmpfs.length = ms.length ∧
  (∀ m ∈ ms, m.destination ∈ targetsToIgnore → m ∈ newMs) ∧
  mts.virtiofs.length = countClass meta .virtiofs ms ∧
  mts.blockDevice.length = countClass meta .blockdev ms ∧
  mts.tmpfs.length = countClass meta .tmpfs ms ∧
  (∀ i (h : i < mts.virtiofs.length),
      (mts.virtiofs.get ⟨i, h⟩).pathInContainer = virtiofsContainerPath (v + i) ∧
      ∃ mm ∈ newMs, mm.destination = virtiofsContainerPath (v + i)) ∧
  (∀ i (h : i < mts.blockDevice.length),
      (mts.blockDevice.get ⟨i, h⟩).pathInContainer = blockContainerPath (b + i) ∧
      ∃ mm ∈ newMs, mm.destination = blockContainerPath (b + i))

theorem countClass_cons (meta : MPath → Option FType) (c : MountClass) (m : OciMount)
    (rest : List OciMount) :
    countClass meta c (m :: rest) =
      (if classifyMount meta m = some c then 1 else 0) + countClass meta c rest := by
  simp only [countClass, List.filter_cons]
  split <;> rename_i hc
  · simp only [beq_iff_eq] at hc
    simp [hc, Nat.add_comm]
  · simp only [beq_iff_eq] at hc
    simp [hc]

theorem goSpec_pass {meta : MPath → Option FType} {m : OciMount} {rest : List OciMount}
    {v b : Nat} {ns : List OciMount} {mts : Mounts}
    (hcl : classifyMount meta m = some .passthrough ∨ classifyMount meta m = some .ignored)
    (hI : GoSpec meta rest v b ns mts) :
    GoSpec meta (m :: rest) v b (m :: ns) mts := by
  obtain ⟨a1, a2, a3, a4, a5, a6, a7, a8⟩ := hI
  refine ⟨?_, ?_, ?_, ?_, ?_, ?_, ?_, ?_⟩
  · intro x hx
    rcases List.mem_cons.mp hx with hx | hx
    · subst hx; rcases hcl with hcl | hcl <;> simp [hcl]
    · exact a1 x hx
  · simp only [List.length_cons]; omega
  · intro x hx hxig
    rcases List.mem_cons.mp hx with hx | hx
    · subst hx; exact List.mem_cons_self _ _
    · exact List.mem_cons_of_mem _ (a3 x hx hxig)
  · rw [countClass_cons]
    rcases hcl with hcl | hcl <;> simp [hcl, a4]
  · rw [countClass_cons]
    rcases hcl with hcl | hcl <;> simp [hcl, a5]
  · rw [countClass_cons]
    rcases hcl with hcl | hcl <;> simp [hcl, a6]
  · intro i hi
    obtain ⟨e1, mm, hmm, e2⟩ := a7 i hi
    exact ⟨e1, mm, List.mem_cons_of_mem _ hmm, e2⟩
  · intro i hi
    obtain ⟨e1, mm, hmm, e2⟩ := a8 i hi
    exact ⟨e1, mm, List.mem_cons_of_mem _ hmm, e2⟩

theorem goSpec_virtiofs {meta : MPath → Option FType} {m : OciMount} {rest : List OciMount}
    {v b : Nat} {ns : List OciMount} {mts : Mounts}
    (hcl : classifyMount meta m = some .virtiofs)
    (hI : GoSpec meta rest (v + 1) b ns mts) :
    GoSpec meta (m :: rest) v b ({ m with destination := virtiofsContainerPath v } :: ns)
      { mts with virtiofs := ⟨virtiofsContainerPath v, m.destination⟩ :: mts.virtiofs } := by
  obtain ⟨a1, a2, a3, a4, a5, a6, a7, a8⟩ := hI
  refine ⟨?_, ?_, ?_, ?_, ?_, ?_, ?_, ?_⟩
  · intro x hx
    rcases List.mem_cons.mp hx with hx | hx
    · subst hx; simp [hcl]
    · exact a1 x hx
  · simp only [List.length_cons]; omega
  · intro x hx hxig
    rcases List.mem_cons.mp hx with hx | hx
    · subst hx
      exfalso
      have hx2 : classifyMount meta x = some .ignored := by simp [classifyMount, hxig]
      rw [hcl] at hx2
      simp at hx2
    · exact List.mem_cons_of_mem _ (a3 x hx hxig)
  · rw [countClass_cons]; simp [hcl, a4, Nat.add_comm]
  · rw [countClass_cons]; simp [hcl, a5, Nat.add_comm]
  · rw [countClass_cons]; simp [hcl, a6, Nat.add_comm]
  · intro i hi
    match i with
    | 0 =>
      refine ⟨by simp, ⟨{ m with destination := virtiofsContainerPath v }, List.mem_cons_self _ _, by simp⟩⟩
    | Nat.succ j =>
      have hj : j < mts.virtiofs.length := by
        simpa [Nat.succ_lt_succ_iff] using hi
      obtain ⟨e1, mm, hmm, e2⟩ := a7 j hj
      have harith : v + (j + 1) = v + 1 + j := by omega
      refine ⟨?_, mm, List.mem_cons_of_mem _ hmm, by rw [harith]; exact e2⟩
      · simpa [harith] using e1
  · intro i hi
    obtain ⟨e1, mm, hmm, e2⟩ := a8 i hi
    exact ⟨e1, mm, List.mem_cons_of_mem _ hmm, e2⟩

theorem goSpec_block {meta : MPath → Option FType} {m : OciMount} {rest : List OciMount}
    {v b : Nat} {ns : List OciMount} {mts : Mounts} {isreg ro : Bool}
    (hcl : classifyMount meta m = some .blockdev)
    (hI : GoSpec meta rest v (b + 1) ns mts) :
    GoSpec meta (m :: rest) v b ({ m with destination := blockContainerPath b } :: ns)
      { mts with blockDevice :=
          ⟨"raw", isreg, blockContainerPath b, m.destination, ro⟩ :: mts.blockDevice } := by
  obtain ⟨a1, a2, a3, a4, a5, a6, a7, a8⟩ := hI
  refine ⟨?_, ?_, ?_, ?_, ?_, ?_, ?_, ?_⟩
  · intro x hx
    rcases List.mem_cons.mp hx with hx | hx
    · subst hx; simp [hcl]
    · exact a1 x hx
  · simp only [List.length_cons]; omega
  · intro x hx hxig
    rcases List.mem_cons.mp hx with hx | hx
    · subst hx
      exfalso
      have hx2 : classifyMount meta x = some .ignored := by simp [classifyMount, hxig]
      rw [hcl] at hx2
      simp at hx2
    · exact List.mem_cons_of_mem _ (a3 x hx hxig)
  · rw [countClass_cons]; simp [hcl, a4, Nat.add_comm]
  · rw [countClass_cons]; simp [hcl, a5, Nat.add_comm]
  · rw [countClass_cons]; simp [hcl, a6, Nat.add_comm]
  · intro i hi
    obtain ⟨e1, mm, hmm, e2⟩ := a7 i hi
    exact ⟨e1, mm, List.mem_cons_of_mem _ hmm, e2⟩
  · intro i hi
    match i with
    | 0 =>
      refine ⟨by simp, ⟨{ m with destination := blockContainerPath b }, List.mem_cons_self _ _, by simp⟩⟩
    | Nat.succ j =>
      have hj : j < mts.blockDevice.length := by
        simpa [Nat.succ_lt_succ_iff] using hi
      obtain ⟨e1, mm, hmm, e2⟩ := a8 j hj
      have harith : b + (j + 1) = b + 1 + j := by omega
      refine ⟨?_, mm, List.mem_cons_of_mem _ hmm, by rw [harith]; exact e2⟩
      · simpa [harith] using e1

theorem goSpec_tmpfs {meta : MPath → Option FType} {m : OciMount} {rest : List OciMount}
    {v b : Nat} {ns : List OciMount} {mts : Mounts}
    (hcl : classifyMount meta m = some .tmpfs)
    (hI : GoSpec meta rest v b ns mts) :
    GoSpec meta (m :: rest) v b ns { mts with tmpfs := ⟨m.destination⟩ :: mts.tmpfs } := by
  obtain ⟨a1, a2, a3, a4, a5, a6, a7, a8⟩ := hI
  refine ⟨?_, ?_, ?_, ?_, ?_, ?_, ?_, ?_⟩
  · intro x hx
    rcases List.mem_cons.mp hx with hx | hx
    · subst hx; simp [hcl]
    · exact a1 x hx
  · simp only [List.length_cons]; omega
  · intro x hx hxig
    rcases List.mem_cons.mp hx with hx | hx
    · subst hx
      exfalso
      have hx2 : classifyMount meta x = some .ignored := by simp [classifyMount, hxig]
      rw [hcl] at hx2
      simp at hx2
    · exact a3 x hx hxig
  · rw [countClass_cons]; simp [hcl, a4, Nat.add_comm]
  · rw [countClass_cons]; simp [hcl, a5, Nat.add_comm]
  · rw [countClass_cons]; simp [hcl, a6, Nat.add_comm]
  · exact a7
  · exact a8

theorem classifyMount_default {meta : MPath → Option FType} {m : OciMount}
    (hig : m.destination ∉ targetsToIgnore)
    (ha : m.typ = some "bind" → False) (hb : m.typ = some "tmpfs" → False) :
    classifyMount meta m = some .passthrough := by
  simp only [classifyMount, if_neg hig]

theorem setUpMountsGo_goSpec (meta : MPath → Option FType) :
    ∀ (ms : List OciMount) (v b : Nat) (newMs : List OciMount) (mts : Mounts),
    setUpMountsGo meta v b ms = .ok (newMs, mts) → GoSpec meta ms v b newMs mts := by
  intro ms
  induction ms with
  | nil =>
    intro v b newMs mts h
    simp [setUpMountsGo] at h
    obtain ⟨h1, h2⟩ := h
    subst h1; subst h2
    exact ⟨by simp, by simp [countClass], by simp, rfl, rfl, rfl,
           fun i hi => absurd hi (by simp), fun i hi => absurd hi (by simp)⟩
  | cons m rest ih =>
    intro v b newMs mts h
    by_cases hig : m.destination ∈ targetsToIgnore
    · rw [setUpMountsGo, if_pos hig] at h
      cases hrec : setUpMountsGo meta v b rest with
      | error e => rw [hrec] at h; simp [bind, Except.bind] at h
      | ok p =>
        obtain ⟨ns, mts2⟩ := p
        rw [hrec] at h
        simp only [bind, Except.bind, Except.ok.injEq, Prod.mk.injEq] at h
        obtain ⟨h1, h2⟩ := h; subst h1; subst h2
        exact goSpec_pass (Or.inr (by simp [classifyMount, hig])) (ih v b ns mts2 hrec)
    · rw [setUpMountsGo, if_neg hig] at h
      split at h
      case _ heq =>
        -- m.typ = some "bind"
        split at h
        case _ hsrc => simp at h
        case _ src hsrc =>
          split at h
          case _ hmeta => simp at h
          case _ hmeta =>
            -- directory source
            by_cases hdev : m.destination.startsWith devPath = true
            · rw [if_pos hdev] at h
              cases hrec : setUpMountsGo meta v b rest with
              | error e => rw [hrec] at h; simp [bind, Except.bind] at h
              | ok p =>
                obtain ⟨ns, mts2⟩ := p
                rw [hrec] at h
                simp only [bind, Except.bind, Except.ok.injEq, Prod.mk.injEq] at h
                obtain ⟨h1, h2⟩ := h; subst h1; subst h2
                exact goSpec_pass
                  (Or.inl (by simp [classifyMount, hig, heq, hsrc, hmeta, hdev]))
                  (ih v b ns mts2 hrec)
            · rw [if_neg hdev] at h
              cases hrec : setUpMountsGo meta (v + 1) b rest with
              | error e => rw [hrec] at h; simp [bind, Except.bind] at h
              | ok p =>
                obtain ⟨ns, mts2⟩ := p
                rw [hrec] at h
                simp only [bind, Except.bind, Except.ok.injEq, Prod.mk.injEq] at h
                obtain ⟨h1, h2⟩ := h; subst h1; subst h2
                exact goSpec_virtiofs
                  (by simp [classifyMount, hig, heq, hsrc, hmeta, hdev])
                  (ih (v + 1) b ns mts2 hrec)
          case _ hmeta =>
            -- regular-file source
            cases hrec : setUpMountsGo meta v (b + 1) rest with
            | error e => rw [hrec] at h; simp [bind, Except.bind] at h
            | ok p =>
              obtain ⟨ns, mts2⟩ := p
              rw [hrec] at h
              simp only [bind, Except.bind, Except.ok.injEq, Prod.mk.injEq] at h
              obtain ⟨h1, h2⟩ := h; subst h1; subst h2
              exact goSpec_block
                (by simp [classifyMount, hig, heq, hsrc, hmeta])
                (ih v (b + 1) ns mts2 hrec)
          case _ hmeta =>
            -- block-device source
            cases hrec : setUpMountsGo meta v (b + 1) rest with
            | error e => rw [hrec] at h; simp [bind, Except.bind] at h
            | ok p =>
              obtain ⟨ns, mts2⟩ := p
              rw [hrec] at h
              simp only [bind, Except.bind, Except.ok.injEq, Prod.mk.injEq] at h
              obtain ⟨h1, h2⟩ := h; subst h1; subst h2
              exact goSpec_block
                (by simp [classifyMount, hig, heq, hsrc, hmeta])
                (ih v (b + 1) ns mts2 hrec)
          case _ val hmeta => simp at h
      case _ heq =>
        -- m.typ = some "tmpfs"
        by_cases hdev : m.destination.startsWith devPath = true
        · rw [if_pos hdev] at h
          cases hrec : setUpMountsGo meta v b rest with
          | error e => rw [hrec] at h; simp [bind, Except.bind] at h
          | ok p =>
            obtain ⟨ns, mts2⟩ := p
            rw [hrec] at h
            simp only [bind, Except.bind, Except.ok.injEq, Prod.mk.injEq] at h
            obtain ⟨h1, h2⟩ := h; subst h1; subst h2
            exact goSpec_pass
              (Or.inl (by simp [classifyMount, hig, heq, hdev]))
              (ih v b ns mts2 hrec)
        · rw [if_neg hdev] at h
          cases hrec : setUpMountsGo meta v b rest with
          | error e => rw [hrec] at h; simp [bind, Except.bind] at h
          | ok p =>
            obtain ⟨ns, mts2⟩ := p
            rw [hrec] at h
            simp only [bind, Except.bind, Except.ok.injEq, Prod.mk.injEq] at h
            obtain ⟨h1, h2⟩ := h; subst h1; subst h2
            exact goSpec_tmpfs
              (by simp [classifyMount, hig, heq, hdev])
              (ih v b ns mts2 hrec)
      case _ ha hb =>
        cases hrec : setUpMountsGo meta v b rest with
        | error e => rw [hrec] at h; simp [bind, Except.bind] at h
        | ok p =>
          obtain ⟨ns, mts2⟩ := p
          rw [hrec] at h
          simp only [bind, Except.bind, Except.ok.injEq, Prod.mk.injEq] at h
          obtain ⟨h1, h2⟩ := h; subst h1; subst h2
          exact goSpec_pass (Or.inl (classifyMount_default hig ha hb))
            (ih v b ns mts2 hrec)


/-- C1 (amended): on every successful run of `set_up_mounts`, each input OCI
mount is assigned exactly one category (the classification function is total
on the inputs), the rewritten mount list accounts for every input mount (a
mount is either kept -- possibly destination-redirected -- or recorded as a
guest-only tmpfs), ignore-listed destinations are passed through unchanged,
the three typed lists have exactly one entry per mount so classified, and the
i-th virtiofs / block-device entry is redirected to its indexed private path,
which occurs in the rewritten list.  (The fixed ignore list does NOT contain
`/dev`: see the counterexample.) -/
theorem setUpMounts_partition (meta : MPath → Option FType) (ms newMs : List OciMount)
    (mts : Mounts) (h : setUpMounts meta ms = .ok (newMs, mts)) :
    (∀ m ∈ ms, (classifyMount meta m).isSome) ∧
    newMs.length + mts.tmpfs.length = ms.length ∧
    (∀ m ∈ ms, m.destination ∈ targetsToIgnore → m ∈ newMs) ∧
    mts.virtiofs.length = countClass meta .virtiofs ms ∧
    mts.blockDevice.length = countClass meta .blockdev ms ∧
    mts.tmpfs.length = countClass meta .tmpfs ms ∧
    (∀ i (h2 : i < mts.virtiofs.length),
        (mts.virtiofs.get ⟨i, h2⟩).pathInContainer = virtiofsContainerPath i ∧
        ∃ mm ∈ newMs, mm.destination = virtiofsContainerPath i) ∧
    (∀ i (h2 : i < mts.blockDevice.length),
        (mts.blockDevice.get ⟨i, h2⟩).pathInContainer = blockContainerPath i ∧
        ∃ mm ∈ newMs, mm.destination = blockContainerPath i) := by
  have hs := setUpMountsGo_goSpec meta ms 0 0 newMs mts h
  simpa [GoSpec] using hs

/-- C1, counterexample to the claim as stated: a bind mount of a regular file
with destination exactly `/dev` (which the claim places in the ignore list) is
NOT passed through unchanged -- `set_up_mounts` reclassifies it as a
block-device mount and rewrites its destination. -/
theorem setUpMounts_dev_counterexample :
    setUpMounts (fun _ => some FType.file)
        [⟨devPath, some "bind", some (absPath ["host", "f"]), []⟩] =
      .ok ([⟨blockContainerPath 0, some "bind", some (absPath ["host", "f"]), []⟩],
           ⟨[], [], [⟨"raw", true, blockContainerPath 0, devPath, false⟩]⟩) ∧
    (⟨devPath, some "bind", some (absPath ["host", "f"]), []⟩ : OciMount) ∉
      [(⟨blockContainerPath 0, some "bind", some (absPath ["host", "f"]), []⟩ : OciMount)] := by
  exact ⟨rfl, by decide⟩

/-- Concrete inputs for the C1 witness: a single bind mount of a directory. -/
def exMeta : MPath → Option FType := fun _ => some FType.dir

def exMounts : List OciMount :=
  [⟨absPath ["data"], some "bind", some (absPath ["host", "d"]), []⟩]

def exNewMounts : List OciMount :=
  [⟨virtiofsContainerPath 0, some "bind", some (absPath ["host", "d"]), []⟩]

def exMts : Mounts := ⟨[⟨virtiofsContainerPath 0, absPath ["data"]⟩], [], []⟩

theorem setUpMounts_partition_witness :
    (∀ m ∈ exMounts, (classifyMount exMeta m).isSome) ∧
    exNewMounts.length + exMts.tmpfs.length = exMounts.length :=
  ⟨(setUpMounts_partition exMeta exMounts exNewMounts exMts rfl).1,
   (setUpMounts_partition exMeta exMounts exNewMounts exMts rfl).2.1⟩


/-! ## C2: custom option path remapping under Kubernetes
(`CustomOptions::from_spec` / `path_in_container_into_path_in_host` in
`src/commands/create/custom_opts.rs`).  `ex` is the `try_exists()` oracle.
The Rust code reports both failures as the same `cannot find <path>` message;
the message is modelled as a single string here. -/

/-- The filter applied by `path_in_container_into_path_in_host`: mounts with a
source whose destination is a component-wise prefix of the path. -/
def mountMatches (p : MPath) (m : OciMount) : Bool :=
  m.source.isSome && p.startsWith m.destination

def pathInContainerIntoPathInHost (mounts : List OciMount) (ex : MPath → Bool)
    (p : MPath) : Except String MPath :=
  match (mounts.filter (mountMatches p)).getLast? with
  | none => .error "path not found"
  | some m =>
    match m.source with
    | none => .error "path not found"
    | some src =>
      match p.stripPrefix? m.destination with
      | none => .error "path not found"
      | some rel =>
        let inHost := src.join rel
        if ex inHost then .ok inHost else .error "path not found"

/-- Modelled from the spec (for comparison): remap by the bind mount whose
destination is the longest-prefix-matching ancestor of the path. -/
def longestPrefixMatch (mounts : List OciMount) (p : MPath) : Option OciMount :=
  mounts.foldl
    (fun best m =>
      if m.typ == some "bind" && m.source.isSome && p.startsWith m.destination then
        match best with
        | none => some m
        | some bm =>
          if bm.destination.clist.length < m.destination.clist.length then some m
          else best
      else best)
    none

/-- Modelled from the spec (for comparison): the host path obtained by
longest-prefix substitution, failing when no mount matches or the host path
does not exist. -/
def specPathInHost (mounts : List OciMount) (ex : MPath → Bool) (p : MPath) :
    Except String MPath :=
  match longestPrefixMatch mounts p with
  | none => .error "path not found"
  | some m =>
    match m.source, p.stripPrefix? m.destination with
    | some src, some rel =>
      let inHost := src.join rel
      if ex inHost then .ok inHost else .error "path not found"
    | _, _ => .error "path not found"

/-- Fallible map over a list in `Except`, used to model iterating a Rust loop
that early-returns on error. -/
def mapME {α β : Type} (f : α → Except String β) : List α → Except String (List β)
  | [] => .ok []
  | x :: rest => do
    let y ← f x
    let ys ← mapME f rest
    .ok (y :: ys)

structure Blockdev where
  source : MPath
  target : MPath
  format : String
deriving DecidableEq, Repr

structure CustomOptions where
  blockdev : List Blockdev
  persistent : Bool
  cloudInit : Option MPath
  ignition : Option MPath
  vfioPci : List MPath
  vfioPciMdev : List MPath
  password : Option String
  mergeLibvirtXml : List MPath
  printLibvirtXml : Bool
deriving Repr

def optAbs : Option MPath → Bool
  | none => true
  | some p => p.abs

/-- The absoluteness check of the Kubernetes arm of `CustomOptions::from_spec`
(`--vfio-pci` paths are not included there, since they are rejected outright). -/
def optionPathsAbsolute (opts : CustomOptions) : Bool :=
  opts.blockdev.all (fun bd => bd.source.abs && bd.target.abs) &&
  optAbs opts.cloudInit && optAbs opts.ignition &&
  opts.mergeLibvirtXml.all (·.abs)

/-- The `RuntimeEnv::Kubernetes` arm of `CustomOptions::from_spec`: validate
absoluteness, reject VFIO options, then remap every path-valued option via
`path_in_container_into_path_in_host`. -/
def remapKubernetesOptions (mounts : List OciMount) (ex : MPath → Bool)
    (opts : CustomOptions) : Except String CustomOptions :=
  if optionPathsAbsolute opts then
    if opts.vfioPci.isEmpty && opts.vfioPciMdev.isEmpty then do
      let bd ← mapME (fun bdev => do
        let s ← pathInContainerIntoPathInHost mounts ex bdev.source
        let t ← pathInContainerIntoPathInHost mounts ex bdev.target
        pure { bdev with source := s, target := t }) opts.blockdev
      let ci ← match opts.cloudInit with
        | none => pure none
        | some p => do
          let q ← pathInContainerIntoPathInHost mounts ex p
          pure (some q)
      let ig ← match opts.ignition with
        | none => pure none
        | some p => do
          let q ← pathInContainerIntoPathInHost mounts ex p
          pure (some q)
      let mx ← mapME (pathInContainerIntoPathInHost mounts ex) opts.mergeLibvirtXml
      pure { opts with blockdev := bd, cloudInit := ci, ignition := ig,
                       mergeLibvirtXml := mx }
    else .error "options --vfio-pci and --vfio-pci-mdev are not allowed"
  else .error "paths must be absolute"

theorem startsWith_stripPrefix {p q : MPath} (h : p.startsWith q = true) :
    p.stripPrefix? q = some ⟨false, p.clist.drop q.clist.length⟩ := by
  unfold MPath.stripPrefix?
  rw [if_pos]
  simpa [MPath.startsWith] using h

/-- Helper: success of `mapME` (fallible map, mirroring a Rust
`collect::<Result<_, _>>`), pointwise. -/
theorem exceptMapM_ok {α β : Type} (f : α → Except String β) :
    ∀ (xs : List α) (ys : List β), mapME f xs = .ok ys →
      ys.length = xs.length ∧
      ∀ i (h : i < xs.length) (h2 : i < ys.length),
        f (xs.get ⟨i, h⟩) = .ok (ys.get ⟨i, h2⟩) := by
  intro xs
  induction xs with
  | nil =>
    intro ys h
    simp only [mapME, Except.ok.injEq] at h
    subst h
    exact ⟨rfl, fun i h => by simp at h⟩
  | cons x rest ih =>
    intro ys h
    rw [mapME] at h
    cases hx : f x with
    | error e => rw [hx] at h; simp [bind, Except.bind] at h
    | ok y =>
      rw [hx] at h
      simp only [bind, Except.bind] at h
      cases hrest : mapME f rest with
      | error e => rw [hrest] at h; simp [bind, Except.bind] at h
      | ok ys2 =>
        rw [hrest] at h
        simp only [bind, Except.bind, pure, Except.pure, Except.ok.injEq] at h
        subst h
        obtain ⟨hlen, hpt⟩ := ih ys2 hrest
        refine ⟨by simp [hlen], ?_⟩
        intro i hi hi2
        match i with
        | 0 => simpa using hx
        | Nat.succ j =>
          have hj : j < rest.length := by simpa [Nat.succ_lt_succ_iff] using hi
          have hj2 : j < ys2.length := by simpa [Nat.succ_lt_succ_iff] using hi2
          simpa using hpt j hj hj2


theorem getLast?_mem_list {α : Type} {l : List α} {a : α} (h : l.getLast? = some a) :
    a ∈ l := by
  have ha : a ∈ l.getLast? := by rw [h]; rfl
  obtain ⟨hne, heq⟩ := List.mem_getLast?_eq_getLast ha
  rw [heq]
  exact List.getLast_mem hne

/-- Helper for C2: pointwise success of the per-`--blockdev` remap implies the
source/target relation. -/
theorem blockdevPointwise (mounts : List OciMount) (ex : MPath → Bool)
    (xs : List Blockdev) (ys : List Blockdev)
    (hpt : ∀ i (h : i < xs.length) (h2 : i < ys.length),
      (do
        let s ← pathInContainerIntoPathInHost mounts ex (xs.get ⟨i, h⟩).source
        let t ← pathInContainerIntoPathInHost mounts ex (xs.get ⟨i, h⟩).target
        pure { xs.get ⟨i, h⟩ with source := s, target := t }) = .ok (ys.get ⟨i, h2⟩)) :
    ∀ i (h : i < xs.length) (h2 : i < ys.length),
      pathInContainerIntoPathInHost mounts ex (xs.get ⟨i, h⟩).source =
          .ok ((ys.get ⟨i, h2⟩).source) ∧
      pathInContainerIntoPathInHost mounts ex (xs.get ⟨i, h⟩).target =
          .ok ((ys.get ⟨i, h2⟩).target) := by
  intro i h h2
  have hi := hpt i h h2
  cases hs : pathInContainerIntoPathInHost mounts ex (xs.get ⟨i, h⟩).source with
  | error e => rw [hs] at hi; simp [bind, Except.bind] at hi
  | ok sq =>
    rw [hs] at hi
    simp only [bind, Except.bind] at hi
    cases ht : pathInContainerIntoPathInHost mounts ex (xs.get ⟨i, h⟩).target with
    | error e => rw [ht] at hi; simp [bind, Except.bind] at hi
    | ok tq =>
      rw [ht] at hi
      simp only [bind, Except.bind, pure, Except.pure, Except.ok.injEq] at hi
      rw [← hi]
      exact ⟨by simp [hs], by simp [ht]⟩

/-- C2 (amended): under Kubernetes the remapping selects the LAST mount (in
spec order, among mounts with a source) whose destination is a prefix of the
path -- not the longest-prefix-matching one -- substitutes that mount\x27s
source for the matched prefix, and succeeds exactly when such a mount exists
and the resulting host path exists; `CustomOptions::from_spec` applies this
remapping to the `--cloud-init` and `--ignition` paths and to every
`--blockdev` source/target and `--merge-libvirt-xml` path. -/
theorem pathInHost_remap_charact :
    (∀ (mounts : List OciMount) (ex : MPath → Bool) (p q : MPath),
      pathInContainerIntoPathInHost mounts ex p = .ok q ↔
        (∃ m, (mounts.filter (mountMatches p)).getLast? = some m ∧
          ∃ src, m.source = some src ∧
          ∃ rel, p.stripPrefix? m.destination = some rel ∧
          q = src.join rel ∧ ex q = true)) ∧
    (∀ (mounts : List OciMount) (ex : MPath → Bool) (opts opts2 : CustomOptions),
      remapKubernetesOptions mounts ex opts = .ok opts2 →
        (opts.cloudInit = none → opts2.cloudInit = none) ∧
        (∀ p, opts.cloudInit = some p →
          ∃ q, pathInContainerIntoPathInHost mounts ex p = .ok q ∧
               opts2.cloudInit = some q) ∧
        (opts.ignition = none → opts2.ignition = none) ∧
        (∀ p, opts.ignition = some p →
          ∃ q, pathInContainerIntoPathInHost mounts ex p = .ok q ∧
               opts2.ignition = some q) ∧
        opts2.mergeLibvirtXml.length = opts.mergeLibvirtXml.length ∧
        (∀ i (h : i < opts.mergeLibvirtXml.length)
            (h2 : i < opts2.mergeLibvirtXml.length),
          pathInContainerIntoPathInHost mounts ex (opts.mergeLibvirtXml.get ⟨i, h⟩) =
            .ok (opts2.mergeLibvirtXml.get ⟨i, h2⟩)) ∧
        opts2.blockdev.length = opts.blockdev.length ∧
        (∀ i (h : i < opts.blockdev.length) (h2 : i < opts2.blockdev.length),
          pathInContainerIntoPathInHost mounts ex (opts.blockdev.get ⟨i, h⟩).source =
              .ok ((opts2.blockdev.get ⟨i, h2⟩).source) ∧
          pathInContainerIntoPathInHost mounts ex (opts.blockdev.get ⟨i, h⟩).target =
              .ok ((opts2.blockdev.get ⟨i, h2⟩).target))) := by
  constructor
  · intro mounts ex p q
    have hmm : ∀ m, (mounts.filter (mountMatches p)).getLast? = some m →
        m.source.isSome = true ∧ p.startsWith m.destination = true := by
      intro m hm
      have hmem := getLast?_mem_list hm
      have hflt := (List.mem_filter.mp hmem).2
      simpa [mountMatches, Bool.and_eq_true] using hflt
    unfold pathInContainerIntoPathInHost
    cases hlast : (mounts.filter (mountMatches p)).getLast? with
    | none => simp
    | some m =>
      obtain ⟨hsrc, hsw⟩ := hmm m hlast
      obtain ⟨src, hsrceq⟩ := Option.isSome_iff_exists.mp hsrc
      have hstrip := startsWith_stripPrefix hsw
      simp only [hsrceq, hstrip]
      by_cases hex : ex (src.join ⟨false, p.clist.drop m.destination.clist.length⟩) = true
      · rw [if_pos hex]
        constructor
        · intro h
          injection h with h
          subst h
          exact ⟨m, rfl, src, hsrceq,
                 ⟨false, p.clist.drop m.destination.clist.length⟩, hstrip, rfl, hex⟩
        · rintro ⟨m2, hm2eq, src2, hsrc2, rel2, hrel2, hqeq, hexq⟩
          injection hm2eq with hm2eq
          subst hm2eq
          rw [hsrceq] at hsrc2
          injection hsrc2 with e1
          subst e1
          rw [hstrip] at hrel2
          injection hrel2 with e2
          subst e2
          rw [hqeq]
      · rw [if_neg hex]
        constructor
        · intro h; cases h
        · rintro ⟨m2, hm2eq, src2, hsrc2, rel2, hrel2, hqeq, hexq⟩
          injection hm2eq with hm2eq
          subst hm2eq
          rw [hsrceq] at hsrc2
          injection hsrc2 with e1
          subst e1
          rw [hstrip] at hrel2
          injection hrel2 with e2
          subst e2
          rw [hqeq] at hexq
          exact absurd hexq hex
  · intro mounts ex opts opts2 h
    unfold remapKubernetesOptions at h
    by_cases habs : optionPathsAbsolute opts = true
    · rw [if_pos habs] at h
      by_cases hvf : (opts.vfioPci.isEmpty && opts.vfioPciMdev.isEmpty) = true
      · rw [if_pos hvf] at h
        cases hbd : mapME (fun bdev => do
            let s ← pathInContainerIntoPathInHost mounts ex bdev.source
            let t ← pathInContainerIntoPathInHost mounts ex bdev.target
            pure { bdev with source := s, target := t }) opts.blockdev with
        | error e => rw [hbd] at h; simp [bind, Except.bind] at h
        | ok bd =>
          rw [hbd] at h
          simp only [bind, Except.bind] at h
          cases hciopt : opts.cloudInit with
          | none =>
            rw [hciopt] at h
            simp only [pure, Except.pure] at h
            cases higopt : opts.ignition with
            | none =>
              rw [higopt] at h
              simp only [pure, Except.pure] at h
              cases hmx : mapME (pathInContainerIntoPathInHost mounts ex)
                  opts.mergeLibvirtXml with
              | error e => rw [hmx] at h; simp [bind, Except.bind] at h
              | ok mx =>
                rw [hmx] at h
                simp only [bind, Except.bind, pure, Except.pure, Except.ok.injEq] at h
                subst h
                obtain ⟨hmxlen, hmxpt⟩ := exceptMapM_ok _ _ _ hmx
                obtain ⟨hbdlen, hbdpt⟩ := exceptMapM_ok _ _ _ hbd
                refine ⟨fun _ => rfl, ?_, fun _ => rfl, ?_, hmxlen, hmxpt, hbdlen, ?_⟩
                · intro p hp; cases hp
                · intro p hp; cases hp
                · exact blockdevPointwise mounts ex opts.blockdev bd hbdpt
            | some p2 =>
              rw [higopt] at h
              simp only [pure, Except.pure] at h
              cases hq2 : pathInContainerIntoPathInHost mounts ex p2 with
              | error e => rw [hq2] at h; simp [bind, Except.bind] at h
              | ok q2 =>
                rw [hq2] at h
                simp only [bind, Except.bind, pure, Except.pure] at h
                cases hmx : mapME (pathInContainerIntoPathInHost mounts ex)
                    opts.mergeLibvirtXml with
                | error e => rw [hmx] at h; simp [bind, Except.bind] at h
                | ok mx =>
                  rw [hmx] at h
                  simp only [bind, Except.bind, pure, Except.pure, Except.ok.injEq] at h
                  subst h
                  obtain ⟨hmxlen, hmxpt⟩ := exceptMapM_ok _ _ _ hmx
                  obtain ⟨hbdlen, hbdpt⟩ := exceptMapM_ok _ _ _ hbd
                  refine ⟨fun _ => rfl, ?_, ?_, ?_, hmxlen, hmxpt, hbdlen, ?_⟩
                  · intro p hp; cases hp
                  · intro hn; cases hn
                  · intro p hp
                    injection hp with hp
                    subst hp
                    exact ⟨q2, hq2, rfl⟩
                  · exact blockdevPointwise mounts ex opts.blockdev bd hbdpt
          | some p1 =>
            rw [hciopt] at h
            simp only [pure, Except.pure] at h
            cases hq1 : pathInContainerIntoPathInHost mounts ex p1 with
            | error e => rw [hq1] at h; simp [bind, Except.bind] at h
            | ok q1 =>
              rw [hq1] at h
              simp only [bind, Except.bind, pure, Except.pure] at h
              cases higopt : opts.ignition with
              | none =>
                rw [higopt] at h
                simp only [pure, Except.pure] at h
                cases hmx : mapME (pathInContainerIntoPathInHost mounts ex)
                    opts.mergeLibvirtXml with
                | error e => rw [hmx] at h; simp [bind, Except.bind] at h
                | ok mx =>
                  rw [hmx] at h
                  simp only [bind, Except.bind, pure, Except.pure, Except.ok.injEq] at h
                  subst h
                  obtain ⟨hmxlen, hmxpt⟩ := exceptMapM_ok _ _ _ hmx
                  obtain ⟨hbdlen, hbdpt⟩ := exceptMapM_ok _ _ _ hbd
                  refine ⟨?_, ?_, fun _ => rfl, ?_, hmxlen, hmxpt, hbdlen, ?_⟩
                  · intro hn; cases hn
                  · intro p hp
                    injection hp with hp
                    subst hp
                    exact ⟨q1, hq1, rfl⟩
                  · intro p hp; cases hp
                  · exact blockdevPointwise mounts ex opts.blockdev bd hbdpt
              | some p2 =>
                rw [higopt] at h
                simp only [pure, Except.pure] at h
                cases hq2 : pathInContainerIntoPathInHost mounts ex p2 with
                | error e => rw [hq2] at h; simp [bind, Except.bind] at h
                | ok q2 =>
                  rw [hq2] at h
                  simp only [bind, Except.bind, pure, Except.pure] at h
                  cases hmx : mapME (pathInContainerIntoPathInHost mounts ex)
                      opts.mergeLibvirtXml with
                  | error e => rw [hmx] at h; simp [bind, Except.bind] at h
                  | ok mx =>
                    rw [hmx] at h
                    simp only [bind, Except.bind, pure, Except.pure, Except.ok.injEq] at h
                    subst h
                    obtain ⟨hmxlen, hmxpt⟩ := exceptMapM_ok _ _ _ hmx
                    obtain ⟨hbdlen, hbdpt⟩ := exceptMapM_ok _ _ _ hbd
                    refine ⟨?_, ?_, ?_, ?_, hmxlen, hmxpt, hbdlen, ?_⟩
                    · intro hn; cases hn
                    · intro p hp
                      injection hp with hp
                      subst hp
                      exact ⟨q1, hq1, rfl⟩
                    · intro hn; cases hn
                    · intro p hp
                      injection hp with hp
                      subst hp
                      exact ⟨q2, hq2, rfl⟩
                    · exact blockdevPointwise mounts ex opts.blockdev bd hbdpt
      · rw [if_neg hvf] at h; cases h
    · rw [if_neg habs] at h; cases h

/-- C2, counterexample to the claim as stated: with mounts
`[/a/b from /x, /a from /y]` and container path `/a/b/c`, the code substitutes
through the LAST matching mount `/a` giving `/y/b/c`, while the
longest-prefix-matching mount `/a/b` would give `/x/c`. -/
theorem pathInHost_counterexample :
    pathInContainerIntoPathInHost
        [⟨absPath ["a", "b"], some "bind", some (absPath ["x"]), []⟩,
         ⟨absPath ["a"], some "bind", some (absPath ["y"]), []⟩]
        (fun _ => true) (absPath ["a", "b", "c"]) = .ok (absPath ["y", "b", "c"]) ∧
    specPathInHost
        [⟨absPath ["a", "b"], some "bind", some (absPath ["x"]), []⟩,
         ⟨absPath ["a"], some "bind", some (absPath ["y"]), []⟩]
        (fun _ => true) (absPath ["a", "b", "c"]) = .ok (absPath ["x", "c"]) ∧
    absPath ["y", "b", "c"] ≠ absPath ["x", "c"] := by
  exact ⟨rfl, rfl, by decide⟩

/-- Concrete options for the C2 witness. -/
def exK8sMounts : List OciMount :=
  [⟨absPath ["opt"], some "bind", some (absPath ["host", "opt"]), []⟩]

def exK8sOptions : CustomOptions :=
  ⟨[], false, some (absPath ["opt", "ci"]), none, [], [], none, [], false⟩

def exK8sOptions2 : CustomOptions :=
  ⟨[], false, some (absPath ["host", "opt", "ci"]), none, [], [], none, [], false⟩

theorem pathInHost_remap_witness :
    (pathInContainerIntoPathInHost exK8sMounts (fun _ => true) (absPath ["opt", "ci"]) =
        .ok (absPath ["host", "opt", "ci"]) ↔
      (∃ m, (exK8sMounts.filter (mountMatches (absPath ["opt", "ci"]))).getLast? = some m ∧
        ∃ src, m.source = some src ∧
        ∃ rel, (absPath ["opt", "ci"]).stripPrefix? m.destination = some rel ∧
        absPath ["host", "opt", "ci"] = src.join rel ∧ (fun (_ : MPath) => true) (absPath ["host", "opt", "ci"]) = true)) ∧
    (∀ p, exK8sOptions.cloudInit = some p →
      ∃ q, pathInContainerIntoPathInHost exK8sMounts (fun _ => true) p = .ok q ∧
           exK8sOptions2.cloudInit = some q) :=
  ⟨pathInHost_remap_charact.1 exK8sMounts (fun _ => true) (absPath ["opt", "ci"])
      (absPath ["host", "opt", "ci"]),
   (pathInHost_remap_charact.2 exK8sMounts (fun _ => true) exK8sOptions exK8sOptions2
      rfl).2.1⟩


/-! ## C3 / C10: libvirt domain disk emission
(`generate` in `src/commands/create/domain.rs`).  Only the `<disk>` elements
are modelled: they are the only elements that consume `next_dev_name` and the
only ones carrying a `<serial>`, which is what C3 and C10 are about. -/

structure VmImageInfo where
  path : MPath
  size : Nat
  format : String
deriving DecidableEq, Repr

/-- One emitted `<disk>` element: its type, `<target dev=..>` name, driver
format, source attribute/value, read-only flag and optional `<serial>`. -/
structure DomainDisk where
  typ : String
  dev : String
  driverType : Option String
  sourceAttr : String
  sourceVal : String
  readonly : Bool
  serial : Option String
deriving DecidableEq, Repr

/-- `next_dev_name`: the i-th call yields `vd` followed by the i-th letter of
the cycled alphabet `(a..=z).cycle()`. -/
def nextDevName (i : Nat) : String :=
  "vd" ++ String.mk [Char.ofNat (97 + i % 26)]

/-- The sequence of `<disk>` elements emitted by `generate`, in order: the
base VM image disk, one disk per block-device mount (in list order, with
serial `crun-vm-block-{i}`), then the cloud-init ISO disk. -/
def generateDisks (vmImageInfo : VmImageInfo) (blocks : List BlockDeviceMount) :
    List DomainDisk :=
  ⟨"file", nextDevName 0, some vmImageInfo.format, "file", vmImageInfo.path.render,
   false, none⟩ ::
  (blocks.enum.map fun p =>
    ⟨if p.2.isRegularFile then "file" else "block",
     nextDevName (1 + p.1),
     some p.2.format,
     if p.2.isRegularFile then "file" else "dev",
     p.2.pathInContainer.render,
     p.2.readonly,
     some ("crun-vm-block-" ++ toString p.1)⟩) ++
  [⟨"file", nextDevName (blocks.length + 1), none, "file",
    "/crun-vm/first-boot/cloud-init.iso", false, none⟩]

/-- C3: with a base image, exactly two block-device mounts and the cloud-init
ISO, the four emitted disks receive target device names `vda`, `vdb`, `vdc`,
`vdd` in that order, for any two block-device mounts whatsoever (hence
regardless of how mounts were declared in the original OCI spec). -/
theorem generateDisks_devNames (img : VmImageInfo) (blocks : List BlockDeviceMount)
    (h : blocks.length = 2) :
    (generateDisks img blocks).map DomainDisk.dev = ["vda", "vdb", "vdc", "vdd"] := by
  match blocks, h with
  | [b1, b2], _ =>
    simp [generateDisks, List.enum, nextDevName]

def exImg : VmImageInfo := ⟨absPath ["crun-vm", "image-overlay.qcow2"], 1024, "qcow2"⟩

def exBlocks : List BlockDeviceMount :=
  [⟨"raw", true, blockContainerPath 0, absPath ["bdev0"], false⟩,
   ⟨"raw", false, blockContainerPath 1, absPath ["dev", "bdev1"], true⟩]

theorem generateDisks_devNames_witness :
    exBlocks.length = 2 ∧
    (generateDisks exImg exBlocks).map DomainDisk.dev = ["vda", "vdb", "vdc", "vdd"] :=
  ⟨rfl, generateDisks_devNames exImg exBlocks rfl⟩

/-! ## C10: first-boot block-device symlinks and udev rules
(`get_block_device_symlinks` / `get_block_device_udev_rules` in
`src/commands/create/first_boot.rs`). -/

/-- `get_block_device_symlinks`: for each block device whose guest path is not
directly under `/dev`, a symlink from the guest path to
`/dev/disk/by-id/virtio-crun-qemu-block-{i}`. -/
def getBlockDeviceSymlinks (blocks : List BlockDeviceMount) : List (MPath × MPath) :=
  blocks.enum.filterMap fun p =>
    if p.2.pathInGuest.parent? = some devPath then none
    else some (p.2.pathInGuest,
               absPath ["dev", "disk", "by-id", "virtio-crun-qemu-block-" ++ toString p.1])

/-- One udev rule line emitted by `get_block_device_udev_rules`. -/
def udevRuleFor (i : Nat) (name : String) : String :=
  "ENV\x7bID_SERIAL\x7d==\"crun-qemu-block-" ++ toString i ++ "\", SYMLINK+=\"" ++
    name ++ "\"\n"

/-- `get_block_device_udev_rules`: for each block device whose guest path is
directly under `/dev`, a rule matching serial `crun-qemu-block-{i}`; `none`
when no such device exists. -/
def getBlockDeviceUdevRules (blocks : List BlockDeviceMount) : Option String :=
  let rules := blocks.enum.foldl
    (fun acc p =>
      if p.2.pathInGuest.parent? = some devPath then
        acc ++ udevRuleFor p.1 ((p.2.pathInGuest.fileName?).getD "")
      else acc)
    ""
  if rules = "" then none else some rules

/-- C10: the first-boot artifacts do NOT reference the serial emitted in the
domain XML.  For a single block device the domain XML disk carries serial
`crun-vm-block-0`, but the udev rule (guest path under `/dev`) matches
`ID_SERIAL` `crun-qemu-block-0`, and the symlink (guest path elsewhere)
targets `/dev/disk/by-id/virtio-crun-qemu-block-0` rather than
`/dev/disk/by-id/virtio-crun-vm-block-0`, so neither refers to the emitted
disk. -/
theorem blockDeviceSerial_mismatch :
    ((generateDisks exImg [⟨"raw", false, blockContainerPath 0,
        absPath ["dev", "mydisk"], false⟩]).map DomainDisk.serial =
      [none, some "crun-vm-block-0", none]) ∧
    (getBlockDeviceUdevRules [⟨"raw", false, blockContainerPath 0,
        absPath ["dev", "mydisk"], false⟩] = some (udevRuleFor 0 "mydisk")) ∧
    "crun-qemu-block-0" ≠ "crun-vm-block-0" ∧
    (getBlockDeviceSymlinks [⟨"raw", true, blockContainerPath 0,
        absPath ["data", "disk0"], false⟩] =
      [(absPath ["data", "disk0"],
        absPath ["dev", "disk", "by-id", "virtio-crun-qemu-block-0"])]) ∧
    "virtio-crun-qemu-block-0" ≠ "virtio-" ++ "crun-vm-block-0" := by
  refine ⟨rfl, rfl, by decide, rfl, by decide⟩


/-! ## C6: vCPU count and memory size
(`get_vcpu_count` / `get_memory_size` in `src/commands/create/domain.rs`).
The OCI cgroup CPU quota is an `i64`, the period a `u64`, and the memory limit
an `i64`; the checked u64 arithmetic of the source is made explicit. -/

/-- `get_vcpu_count`: ceil(quota / period) via checked u64 arithmetic when the
quota is set, convertible to u64 and nonzero; otherwise (including period
unset or zero, and u64 overflow of `quota + period`) the host CPU count. -/
def getVcpuCount (hostCpus : Nat) (cpuQuota : Option Int) (cpuPeriod : Option Nat) :
    Nat :=
  let vcpuCount : Option Nat :=
    match cpuQuota with
    | none => none
    | some qi =>
      if qi < 0 then none
      else
        let q := qi.toNat
        match cpuPeriod with
        | none => none
        | some p =>
          if q = 0 then none
          else if q + p ≥ 2 ^ 64 then none
          else if q + p < 1 then none
          else if p = 0 then none
          else some ((q + p - 1) / p)
  vcpuCount.getD hostCpus

/-- `get_memory_size`: the cgroup memory limit when set and convertible to
u64 (i.e. nonnegative), else the fixed default of 2 GiB. -/
def getMemorySize (memLimit : Option Int) : Nat :=
  match memLimit with
  | none => 2 ^ 31
  | some l => if l < 0 then 2 ^ 31 else l.toNat

/-- C6, counterexample to the claim as stated: quota 1 is set and nonzero and
ceil(1 / (2^64 - 1)) = 1, yet with period 2^64 - 1 the checked u64 addition
`quota + period` overflows and the code falls back to the host CPU count. -/
theorem getVcpuCount_counterexample :
    getVcpuCount 4 (some 1) (some (2 ^ 64 - 1)) = 4 ∧
    (1 + (2 ^ 64 - 1) - 1) / (2 ^ 64 - 1) = 1 ∧
    (4 : Nat) ≠ 1 := by
  refine ⟨by decide, by decide, by decide⟩

/-- C6 (amended): when quota and period are both set, positive, and
`quota + period` fits in u64, the vCPU count is ceil(quota / period) --
computed as `(quota + period - 1) / period` and characterized by the two
ceiling bounds; when the quota is absent, zero, or the period is absent, it
falls back to the host logical CPU count; the memory size is the cgroup limit
when set and nonnegative, else the fixed default `2 ^ 31` bytes (2 GiB). -/
theorem getVcpuCount_getMemorySize_spec :
    (∀ (host q p : Nat), 0 < q → 0 < p → q + p < 2 ^ 64 →
      getVcpuCount host (some (q : Int)) (some p) = (q + p - 1) / p ∧
      q ≤ (q + p - 1) / p * p ∧ ((q + p - 1) / p - 1) * p < q) ∧
    (∀ (host : Nat) (p : Option Nat), getVcpuCount host none p = host) ∧
    (∀ (host : Nat) (p : Option Nat), getVcpuCount host (some 0) p = host) ∧
    (∀ (host : Nat) (q : Int), getVcpuCount host (some q) none = host) ∧
    (∀ l : Int, 0 ≤ l → getMemorySize (some l) = l.toNat) ∧
    getMemorySize none = 2 ^ 31 := by
  refine ⟨?_, fun host p => rfl, ?_, ?_, ?_, rfl⟩
  · intro host q p hq hp hlt
    have h0 : ¬((q : Int) < 0) := Int.not_lt.mpr (Int.natCast_nonneg q)
    have h1 : ¬((q : Int).toNat = 0) := by
      rw [Int.toNat_natCast]; omega
    have h2 : ¬((q : Int).toNat + p ≥ 2 ^ 64) := by
      rw [Int.toNat_natCast]; omega
    have h3 : ¬((q : Int).toNat + p < 1) := by
      rw [Int.toNat_natCast]; omega
    have h4 : ¬(p = 0) := by omega
    refine ⟨?_, ?_, ?_⟩
    · have e1 : ¬(q = 0) := by omega
      have e2 : ¬((18446744073709551616 : Nat) ≤ q + p) := by omega
      have e3 : ¬(q + p < 1) := by omega
      simp [getVcpuCount, h0, Int.toNat_natCast, e1, e2, e3, h4]
    · -- q ≤ ceil * p
      have hdl : (q + p - 1) / p < (q + p - 1) / p + 1 := Nat.lt_succ_self _
      have h5 : q + p - 1 < ((q + p - 1) / p + 1) * p :=
        (Nat.div_lt_iff_lt_mul hp).mp hdl
      have h6 : ((q + p - 1) / p + 1) * p = (q + p - 1) / p * p + p := by
        rw [Nat.succ_mul]
      rw [h6] at h5
      omega
    · -- (ceil - 1) * p < q
      have h7 : (q + p - 1) / p * p ≤ q + p - 1 := Nat.div_mul_le_self _ _
      have h8 : ((q + p - 1) / p - 1) * p = (q + p - 1) / p * p - 1 * p :=
        Nat.sub_mul _ _ _
      rw [one_mul] at h8
      omega
  · intro host p
    cases p <;> simp [getVcpuCount]
  · intro host q
    by_cases hq : q < 0 <;> simp [getVcpuCount, hq]
  · intro l hl
    have : ¬(l < 0) := Int.not_lt.mpr hl
    simp [getMemorySize, this]

theorem getVcpuCount_getMemorySize_witness :
    0 < 150000 ∧ 0 < 100000 ∧ 150000 + 100000 < 2 ^ 64 ∧
    getVcpuCount 7 (some ((150000 : Nat) : Int)) (some 100000) =
      (150000 + 100000 - 1) / 100000 ∧
    (0 : Int) ≤ 2147483648 ∧ getMemorySize (some 2147483648) = (2147483648 : Int).toNat :=
  ⟨by decide, by decide, by decide,
   (getVcpuCount_getMemorySize_spec.1 7 150000 100000 (by decide) (by decide)
      (by decide)).1,
   by decide,
   getVcpuCount_getMemorySize_spec.2.2.2.2.1 2147483648 (by decide)⟩

/-! ## C7: single VM image discovery
(`find_single_file_in_dirs` in `src/util.rs`).  The filesystem is an oracle
`fs` mapping a directory path to its entry list (`none` when the path is not
a directory); each entry is a name paired with whether it is a regular file. -/

/-- Inner loop of `find_single_file_in_dirs` over one directory listing. -/
def findGoEntries (ign : List MPath) (d : MPath) :
    List (String × Bool) → Option MPath → Except String (Option MPath)
  | [], cand => .ok cand
  | e :: rest, cand =>
    if e.2 then
      let path := d.join (relPath [e.1])
      if ign.any (fun f => path = f) then findGoEntries ign d rest cand
      else
        match cand with
        | some _ => .error "more than one file found"
        | none => findGoEntries ign d rest (some path)
    else findGoEntries ign d rest cand

/-- Outer loop of `find_single_file_in_dirs` over the search directories. -/
def findGoDirs (fs : MPath → Option (List (String × Bool))) (ign : List MPath) :
    List MPath → Option MPath → Except String (Option MPath)
  | [], cand => .ok cand
  | d :: rest, cand =>
    match fs d with
    | none => findGoDirs fs ign rest cand
    | some entries =>
      match findGoEntries ign d entries cand with
      | .error e => .error e
      | .ok cand2 => findGoDirs fs ign rest cand2

def findSingleFileInDirs (fs : MPath → Option (List (String × Bool)))
    (dirs : List MPath) (ign : List MPath) : Except String MPath :=
  match findGoDirs fs ign dirs none with
  | .error e => .error e
  | .ok (some p) => .ok p
  | .ok none => .error "no files found"

/-- Whether a directory entry is a candidate: a regular file not in the
ignore list. -/
def isCandidate (ign : List MPath) (d : MPath) (e : String × Bool) : Bool :=
  e.2 && !(ign.any fun f => d.join (relPath [e.1]) = f)

/-- The candidate files of one directory: regular files not in the ignore
list. -/
def dirCandidates (ign : List MPath) (d : MPath) (entries : List (String × Bool)) :
    List MPath :=
  entries.filterMap fun e =>
    if isCandidate ign d e then some (d.join (relPath [e.1])) else none

theorem dirCandidates_cons (ign : List MPath) (d : MPath) (e : String × Bool)
    (rest : List (String × Bool)) :
    dirCandidates ign d (e :: rest) =
      if isCandidate ign d e then d.join (relPath [e.1]) :: dirCandidates ign d rest
      else dirCandidates ign d rest := by
  simp only [dirCandidates, List.filterMap_cons]
  cases h : isCandidate ign d e <;> simp [h]

/-- All candidate files across the search directories, in scan order. -/
def candidates (fs : MPath → Option (List (String × Bool))) (ign : List MPath)
    (dirs : List MPath) : List MPath :=
  (dirs.map fun d =>
    match fs d with
    | none => []
    | some entries => dirCandidates ign d entries).flatten

/-- Outcome of scanning a candidate list starting from accumulator `cand`. -/
def stepResult (cand : Option MPath) (cands : List MPath) :
    Except String (Option MPath) :=
  match cand, cands with
  | none, [] => .ok none
  | none, [p] => .ok (some p)
  | none, _ :: _ :: _ => .error "more than one file found"
  | some c, [] => .ok (some c)
  | some _, _ :: _ => .error "more than one file found"

theorem stepResult_cons_none (p : MPath) (l : List MPath) :
    stepResult none (p :: l) = stepResult (some p) l := by
  cases l <;> rfl

theorem stepResult_append (cand : Option MPath) (c1 c2 : List MPath) :
    stepResult cand (c1 ++ c2) =
      match stepResult cand c1 with
      | .error e => .error e
      | .ok cand2 => stepResult cand2 c2 := by
  match cand, c1 with
  | none, [] => rfl
  | none, [p] => cases c2 <;> rfl
  | none, p :: q :: l => rfl
  | some c, [] => rfl
  | some c, p :: l => rfl

theorem findGoEntries_stepResult (ign : List MPath) (d : MPath) :
    ∀ (entries : List (String × Bool)) (cand : Option MPath),
      findGoEntries ign d entries cand = stepResult cand (dirCandidates ign d entries) := by
  intro entries
  induction entries with
  | nil => intro cand; cases cand <;> rfl
  | cons e rest ih =>
    intro cand
    by_cases hf : e.2 = true
    · by_cases hign : (ign.any fun f => d.join (relPath [e.1]) = f) = true
      · rw [findGoEntries, if_pos hf, if_pos hign]
        have hnc : isCandidate ign d e = false := by
          unfold isCandidate
          rw [hf, hign]
          decide
        rw [dirCandidates_cons, if_neg (by rw [hnc]; exact Bool.false_ne_true), ih]
      · rw [findGoEntries, if_pos hf, if_neg hign]
        have hc : isCandidate ign d e = true := by
          unfold isCandidate
          cases ha : (ign.any fun f => d.join (relPath [e.1]) = f) with
          | true => exact absurd ha hign
          | false => rw [hf]; decide
        rw [dirCandidates_cons, if_pos hc]
        cases cand with
        | none => rw [ih, stepResult_cons_none]
        | some c => rfl
    · have hf2 : e.2 = false := by simpa using hf
      rw [findGoEntries, if_neg (by rw [hf2]; exact Bool.false_ne_true)]
      have hnc : isCandidate ign d e = false := by
        unfold isCandidate
        rw [hf2]
        rfl
      rw [dirCandidates_cons, if_neg (by rw [hnc]; exact Bool.false_ne_true), ih]

theorem findGoDirs_stepResult (fs : MPath → Option (List (String × Bool)))
    (ign : List MPath) :
    ∀ (dirs : List MPath) (cand : Option MPath),
      findGoDirs fs ign dirs cand = stepResult cand (candidates fs ign dirs) := by
  intro dirs
  induction dirs with
  | nil => intro cand; cases cand <;> rfl
  | cons d rest ih =>
    intro cand
    rw [findGoDirs]
    have hc : candidates fs ign (d :: rest) =
        (match fs d with
         | none => []
         | some entries => dirCandidates ign d entries) ++ candidates fs ign rest := by
      simp [candidates, List.map_cons]
    cases hfs : fs d with
    | none =>
      rw [hc]
      simp only [hfs]
      rw [List.nil_append, ih]
    | some entries =>
      rw [hc]
      simp only [hfs]
      rw [findGoEntries_stepResult, stepResult_append]
      cases hst : stepResult cand (dirCandidates ign d entries) with
      | error e => rfl
      | ok cand2 => exact ih cand2

/-- C7: `find_single_file_in_dirs` scans the given directories non-recursively
for regular files not in the ignore list, and fails with "no files found" when
there is no candidate, returns the unique candidate when there is exactly one,
and fails with "more than one file found" when there are two or more. -/
theorem findSingleFileInDirs_spec (fs : MPath → Option (List (String × Bool)))
    (ign : List MPath) (dirs : List MPath) :
    findSingleFileInDirs fs dirs ign =
      match candidates fs ign dirs with
      | [] => .error "no files found"
      | [p] => .ok p
      | _ :: _ :: _ => .error "more than one file found" := by
  unfold findSingleFileInDirs
  rw [findGoDirs_stepResult]
  cases hc : candidates fs ign dirs with
  | nil => rfl
  | cons p l => cases l <;> rfl


/-! ## C9: engine detection
(`RuntimeEnv::current` in `src/commands/create/runtime_env.rs`).  `readFile`
is the `fs::read_to_string` oracle (`none` models a read error, which the
source propagates), `hasDockerenv` the `.dockerenv` `try_exists()` oracle. -/

inductive RuntimeEnv where
  | Docker
  | Kubernetes
  | Other
deriving DecidableEq, Repr

def k8sSecretsPath : MPath := absPath ["var", "run", "secrets", "kubernetes.io"]

def etcHostsPath : MPath := absPath ["etc", "hosts"]

def k8sHostsMarker : String := "Kubernetes-managed hosts file"

/-- Substring test on char lists (models Rust `str::contains`). -/
def listContainsSub (ns : List Char) : List Char → Bool
  | [] => ns.isEmpty
  | c :: t => ns.isPrefixOf (c :: t) || listContainsSub ns t

def strContains (hay needle : String) : Bool :=
  listContainsSub needle.toList hay.toList

/-- Rust `str::lines().next()`: `none` for the empty string, else the text up
to the first newline, with a trailing carriage return stripped. -/
def firstLine? (s : String) : Option String :=
  if s = "" then none
  else
    let t := s.toList.takeWhile fun c => c ≠ Char.ofNat 10
    let t2 := if t.getLast? = some (Char.ofNat 13) then t.dropLast else t
    some (String.mk t2)

def hasK8sSecretsDir (mounts : List OciMount) : Bool :=
  mounts.any fun m => m.destination.startsWith k8sSecretsPath

/-- The first `/etc/hosts` mount source, as selected by
`filter(dest == /etc/hosts).flat_map(source).next()`. -/
def firstEtcHostsSource (mounts : List OciMount) : Option MPath :=
  ((mounts.filter fun m => m.destination = etcHostsPath).filterMap OciMount.source).head?

/-- `RuntimeEnv::current`: Kubernetes if the secrets-dir or managed-hosts
marker is present, else Docker if `.dockerenv` exists, else Other; a failure
reading the `/etc/hosts` source propagates as an error. -/
def managedHostsCheck (mounts : List OciMount) (readFile : MPath → Option String) :
    Except String Bool :=
  match firstEtcHostsSource mounts with
  | none => .ok false
  | some src =>
    match readFile src with
    | none => .error "failed to read mount source"
    | some content =>
      .ok (match firstLine? content with
           | none => false
           | some l => strContains l k8sHostsMarker)

def runtimeEnvCurrent (mounts : List OciMount) (readFile : MPath → Option String)
    (hasDockerenv : Bool) : Except String RuntimeEnv :=
  match managedHostsCheck mounts readFile with
  | .error e => .error e
  | .ok m =>
    .ok (if hasK8sSecretsDir mounts || m then .Kubernetes
         else if hasDockerenv then .Docker
         else .Other)

/-- The managed-`/etc/hosts` Kubernetes marker, stated declaratively. -/
def managedHostsProp (mounts : List OciMount) (readFile : MPath → Option String) :
    Prop :=
  ∃ src, firstEtcHostsSource mounts = some src ∧
    ∃ c, readFile src = some c ∧
      ∃ l, firstLine? c = some l ∧ strContains l k8sHostsMarker = true

/-- Either Kubernetes marker, stated declaratively. -/
def kubernetesMarkers (mounts : List OciMount) (readFile : MPath → Option String) :
    Prop :=
  (∃ m ∈ mounts, m.destination.startsWith k8sSecretsPath = true) ∨
  managedHostsProp mounts readFile

theorem runtimeEnvCurrent_shape (mounts : List OciMount)
    (readFile : MPath → Option String) (dk : Bool) (env : RuntimeEnv)
    (h : runtimeEnvCurrent mounts readFile dk = .ok env) :
    ∃ mb : Bool, (mb = true ↔ managedHostsProp mounts readFile) ∧
      env = (if hasK8sSecretsDir mounts || mb then .Kubernetes
             else if dk then .Docker else .Other) := by
  unfold runtimeEnvCurrent at h
  cases hmc : managedHostsCheck mounts readFile with
  | error e => rw [hmc] at h; cases h
  | ok mb =>
    rw [hmc] at h
    simp only [Except.ok.injEq] at h
    refine ⟨mb, ?_, h.symm⟩
    unfold managedHostsCheck at hmc
    split at hmc
    case _ hfs =>
      simp only [Except.ok.injEq] at hmc
      subst hmc
      simp [managedHostsProp, hfs]
    case _ src hfs =>
      split at hmc
      case _ hrf => cases hmc
      case _ c hrf =>
        simp only [Except.ok.injEq] at hmc
        subst hmc
        cases hfl : firstLine? c with
        | none => simp [managedHostsProp, hfs, hrf, hfl]
        | some l => simp [managedHostsProp, hfs, hrf, hfl]

/-- C9: on success, `RuntimeEnv::current` classifies by ordered checks with
first match winning: the result is Kubernetes exactly when a Kubernetes
marker (secrets-dir mount, or managed `/etc/hosts` first line) is present --
in particular a spec also exhibiting the Docker marker is still classified as
Kubernetes -- Docker exactly when no Kubernetes marker is present and the
`.dockerenv` marker file exists, and Other otherwise. -/
theorem runtimeEnvCurrent_spec (mounts : List OciMount)
    (readFile : MPath → Option String) (dk : Bool) (env : RuntimeEnv)
    (h : runtimeEnvCurrent mounts readFile dk = .ok env) :
    (env = .Kubernetes ↔ kubernetesMarkers mounts readFile) ∧
    (env = .Docker ↔ (¬kubernetesMarkers mounts readFile ∧ dk = true)) ∧
    (env = .Other ↔ (¬kubernetesMarkers mounts readFile ∧ dk = false)) ∧
    (kubernetesMarkers mounts readFile → dk = true → env = .Kubernetes) := by
  obtain ⟨mb, hmb, henv⟩ := runtimeEnvCurrent_shape mounts readFile dk env h
  have hsec : hasK8sSecretsDir mounts = true ↔
      (∃ m ∈ mounts, m.destination.startsWith k8sSecretsPath = true) := by
    simp [hasK8sSecretsDir, List.any_eq_true]
  have hmarkers : kubernetesMarkers mounts readFile ↔
      (hasK8sSecretsDir mounts || mb) = true := by
    rw [kubernetesMarkers, Bool.or_eq_true, hsec, hmb]
  subst henv
  by_cases hk : kubernetesMarkers mounts readFile
  · have hc : (hasK8sSecretsDir mounts || mb) = true := hmarkers.mp hk
    rw [hc]
    simp [hk]
  · have hc : (hasK8sSecretsDir mounts || mb) = false := by
      cases hcc : hasK8sSecretsDir mounts || mb with
      | true => exact absurd (hmarkers.mpr hcc) hk
      | false => rfl
    rw [hc]
    cases dk with
    | true => simp [hk]
    | false => simp [hk]

/-- Concrete inputs for the C9 witness: a spec with both a Kubernetes secrets
mount and the Docker marker file is classified as Kubernetes. -/
def exK8sSecretsMounts : List OciMount :=
  [⟨absPath ["var", "run", "secrets", "kubernetes.io", "serviceaccount"],
    some "bind", some (absPath ["host", "sa"]), []⟩]

theorem runtimeEnvCurrent_spec_witness :
    kubernetesMarkers exK8sSecretsMounts (fun _ => none) ∧
    runtimeEnvCurrent exK8sSecretsMounts (fun _ => none) true = .ok .Kubernetes ∧
    (RuntimeEnv.Kubernetes = .Kubernetes ↔
      kubernetesMarkers exK8sSecretsMounts (fun _ => none)) :=
  have hm : kubernetesMarkers exK8sSecretsMounts (fun _ => none) :=
    Or.inl ⟨_, List.mem_cons_self _ _, by decide⟩
  ⟨hm, rfl,
   (runtimeEnvCurrent_spec exK8sSecretsMounts (fun _ => none) true .Kubernetes rfl).1⟩


/-! ## C5 / C8: cloud-init first-boot configuration
(`apply_to_cloud_init_config` in `src/commands/create/first_boot.rs`).
`serde_yaml::Value` is modelled by `Yaml`; mappings are insertion-ordered
association lists with string keys (the code only ever uses string keys).
`entry(k).or_insert(v)` keeps the position of an existing key and appends a
missing one, which is what `ymGet`/`ymSet` implement. -/

inductive Yaml where
  | null : Yaml
  | bool : Bool → Yaml
  | str : String → Yaml
  | seq : List Yaml → Yaml
  | map : List (String × Yaml) → Yaml

def ymGet : List (String × Yaml) → String → Option Yaml
  | [], _ => none
  | e :: rest, key => if e.1 = key then some e.2 else ymGet rest key

def ymSet : List (String × Yaml) → String → Yaml → List (String × Yaml)
  | [], key, v => [(key, v)]
  | e :: rest, key, v =>
    if e.1 = key then (e.1, v) :: rest else e :: ymSet rest key v

theorem ymGet_ymSet_same (m : List (String × Yaml)) (k : String) (v : Yaml) :
    ymGet (ymSet m k v) k = some v := by
  induction m with
  | nil => simp [ymGet, ymSet]
  | cons e rest ih =>
    by_cases he : e.1 = k
    · rw [ymSet, if_pos he, ymGet, if_pos he]
    · rw [ymSet, if_neg he, ymGet, if_neg he, ih]

theorem ymGet_ymSet_ne (m : List (String × Yaml)) (k k2 : String) (v : Yaml)
    (h : k ≠ k2) : ymGet (ymSet m k v) k2 = ymGet m k2 := by
  induction m with
  | nil => simp [ymGet, ymSet, h]
  | cons e rest ih =>
    by_cases he : e.1 = k
    · rw [ymSet, if_pos he, ymGet, ymGet]
      have : ¬(e.1 = k2) := by rw [he]; exact h
      rw [if_neg this, if_neg this]
    · rw [ymSet, if_neg he, ymGet, ymGet]
      by_cases he2 : e.1 = k2
      · rw [if_pos he2, if_pos he2]
      · rw [if_neg he2, if_neg he2, ih]

structure FirstBootCfg where
  hostname : Option String
  containerPublicKey : String
  password : Option String
  mounts : Mounts

/-- One entry of the cloud-init `mounts` list:
`[tag, path_in_guest, type, "defaults", "0", "0"]`. -/
def cloudInitMountEntry (typ tag : String) (pathInGuest : MPath) : Yaml :=
  .seq [.str tag, .str pathInGuest.render, .str typ, .str "defaults", .str "0",
        .str "0"]

/-- The generated virtiofs `mounts` entries, in virtiofs-list order. -/
def virtiofsEntries (ms : Mounts) : List Yaml :=
  ms.virtiofs.enum.map fun p =>
    cloudInitMountEntry "virtiofs" ("virtiofs-" ++ toString p.1) p.2.pathInGuest

/-- The generated tmpfs `mounts` entries. -/
def tmpfsEntries (ms : Mounts) : List Yaml :=
  ms.tmpfs.map fun t => cloudInitMountEntry "tmpfs" "tmpfs" t.pathInGuest

/-- The `set user passwords` block. -/
def adjustPassword (cfg : FirstBootCfg) (m : List (String × Yaml)) :
    Except String (List (String × Yaml)) :=
  match cfg.password with
  | none => .ok m
  | some pw =>
    match (ymGet (ymSet m "password" (.str pw)) "chpasswd").getD (.map []) with
    | .map cm =>
      .ok (ymSet (ymSet m "password" (.str pw)) "chpasswd"
        (.map (ymSet cm "expire" (.bool false))))
    | _ => .error "invalid user-data file"

/-- The `adjust mounts` block. -/
def adjustMounts (cfg : FirstBootCfg) (m : List (String × Yaml)) :
    Except String (List (String × Yaml)) :=
  if cfg.mounts.virtiofs.isEmpty && cfg.mounts.tmpfs.isEmpty then .ok m
  else
    match (ymGet m "mounts").getD (.seq []) with
    | .seq xs =>
      .ok (ymSet m "mounts"
        (.seq (xs ++ virtiofsEntries cfg.mounts ++ tmpfsEntries cfg.mounts)))
    | _ => .error "invalid user-data file"

/-- The `adjust hostname` block. -/
def adjustHostname (cfg : FirstBootCfg) (m : List (String × Yaml)) :
    List (String × Yaml) :=
  match cfg.hostname with
  | none => m
  | some h =>
    ymSet (ymSet (ymSet m "preserve_hostname" (.bool false))
        "prefer_fqdn_over_hostname" (.bool false))
      "hostname" (.str h)

/-- The `adjust authorized keys` block. -/
def adjustSshKeys (cfg : FirstBootCfg) (m : List (String × Yaml)) :
    Except String (List (String × Yaml)) :=
  match (ymGet m "ssh_authorized_keys").getD (.seq []) with
  | .seq ks =>
    .ok (ymSet m "ssh_authorized_keys"
      (.seq (ks ++ [.str cfg.containerPublicKey])))
  | _ => .error "invalid user-data file"

/-- The `runcmd` entries generated for block-device symlinks (a `mkdir -p`
plus a `ln --symbolic` pair per symlink) and the `udevadm trigger` command. -/
def runcmdEntries (symlinks : List (MPath × MPath)) (hasRules : Bool) : List Yaml :=
  (symlinks.map fun st =>
    [Yaml.seq [.str "mkdir", .str "-p", .str (((st.1.parent?).getD (relPath [])).render)],
     Yaml.seq [.str "ln", .str "--symbolic", .str st.2.render, .str st.1.render]]).flatten ++
  (if hasRules then [Yaml.str "udevadm trigger"] else [])

/-- The `create block device symlinks and udev rules` blocks. -/
def adjustRuncmdWriteFiles (cfg : FirstBootCfg) (m : List (String × Yaml)) :
    Except String (List (String × Yaml)) :=
  let symlinks := getBlockDeviceSymlinks cfg.mounts.blockDevice
  let rules := getBlockDeviceUdevRules cfg.mounts.blockDevice
  let step1 : Except String (List (String × Yaml)) :=
    if symlinks.isEmpty && !rules.isSome then .ok m
    else
      match (ymGet m "runcmd").getD (.seq []) with
      | .seq xs => .ok (ymSet m "runcmd" (.seq (xs ++ runcmdEntries symlinks rules.isSome)))
      | _ => .error "invalid user-data file"
  match step1 with
  | .error e => .error e
  | .ok m1 =>
    match rules with
    | none => .ok m1
    | some r =>
      match (ymGet m1 "write_files").getD (.seq []) with
      | .seq xs =>
        .ok (ymSet m1 "write_files"
          (.seq (xs ++ [Yaml.map [("path", .str "/etc/udev/rules.d/99-crun-qemu.rules"),
                                  ("content", .str r)]])))
      | _ => .error "invalid user-data file"

/-- The user-data adjustment pipeline of `apply_to_cloud_init_config`: treat
`Null` as an empty mapping, require a mapping, then apply the password,
mounts, hostname, SSH-key and block-device blocks in source order. -/
def adjustUserData (cfg : FirstBootCfg) (ud : Yaml) : Except String Yaml :=
  let ud1 : Yaml := match ud with
    | .null => Yaml.map []
    | x => x
  match ud1 with
  | .map m =>
    match adjustPassword cfg m with
    | .error e => .error e
    | .ok m1 =>
      match adjustMounts cfg m1 with
      | .error e => .error e
      | .ok m2 =>
        let m3 := adjustHostname cfg m2
        match adjustSshKeys cfg m3 with
        | .error e => .error e
        | .ok m4 =>
          match adjustRuncmdWriteFiles cfg m4 with
          | .error e => .error e
          | .ok m5 => .ok (.map m5)
  | _ => .error "invalid user-data file"

/-- The state of a user-supplied cloud-init config directory, as far as
`apply_to_cloud_init_config` inspects it. -/
structure CloudInitDir where
  metaDataIsFile : Bool
  userDataIsFile : Bool
  userDataContent : String

def shebangErrMsg : String := "expected shebang #cloud-config in user-data file"

/-- Rust `str::trim`: strip leading and trailing whitespace. -/
def strTrim (s : String) : String :=
  String.mk (((s.toList.dropWhile Char.isWhitespace).reverse.dropWhile
    Char.isWhitespace).reverse)

/-- The config-loading front half of `apply_to_cloud_init_config`: with a user
config directory, `meta-data` and `user-data` must be regular files and a
nonempty `user-data` must have `#cloud-config` (after trimming) as its first
line; `parse` is the `serde_yaml::from_str` oracle. -/
def loadUserData (dir? : Option CloudInitDir) (parse : String → Option Yaml) :
    Except String Yaml :=
  match dir? with
  | none => .ok .null
  | some d =>
    if !d.metaDataIsFile then .error "missing mandatory config file meta-data"
    else if !d.userDataIsFile then .error "missing mandatory config file user-data"
    else
      let shebangOk : Except String Unit :=
        match firstLine? d.userDataContent with
        | none => .ok ()
        | some l => if strTrim l = "#cloud-config" then .ok () else .error shebangErrMsg
      match shebangOk with
      | .error e => .error e
      | .ok _ =>
        match parse d.userDataContent with
        | none => .error "invalid user-data file"
        | some y => .ok y

/-- `apply_to_cloud_init_config` (document level): load or default the
user-data document, then apply the generated adjustments. -/
def applyToCloudInitConfig (cfg : FirstBootCfg) (parse : String → Option Yaml)
    (dir? : Option CloudInitDir) : Except String Yaml :=
  match loadUserData dir? parse with
  | .error e => .error e
  | .ok ud => adjustUserData cfg ud


theorem adjustPassword_preserves (cfg : FirstBootCfg) (m m1 : List (String × Yaml))
    (h : adjustPassword cfg m = .ok m1) (k : String)
    (h1 : k ≠ "password") (h2 : k ≠ "chpasswd") : ymGet m1 k = ymGet m k := by
  unfold adjustPassword at h
  split at h
  · injection h with h
    subst h
    rfl
  · split at h
    · injection h with h
      subst h
      rw [ymGet_ymSet_ne _ _ _ _ (Ne.symm h2), ymGet_ymSet_ne _ _ _ _ (Ne.symm h1)]
    all_goals cases h

theorem adjustMounts_spec (cfg : FirstBootCfg) (m m2 : List (String × Yaml))
    (h : adjustMounts cfg m = .ok m2) :
    (∀ k, k ≠ "mounts" → ymGet m2 k = ymGet m k) ∧
    (∀ xs, ymGet m "mounts" = some (.seq xs) →
      ymGet m2 "mounts" =
        some (.seq (xs ++ virtiofsEntries cfg.mounts ++ tmpfsEntries cfg.mounts))) := by
  unfold adjustMounts at h
  split at h
  · rename_i hemp
    injection h with h
    subst h
    have hve : virtiofsEntries cfg.mounts = [] := by
      rw [Bool.and_eq_true] at hemp
      cases hv : cfg.mounts.virtiofs with
      | nil => simp [virtiofsEntries, hv]
      | cons a b => rw [hv] at hemp; simp [List.isEmpty] at hemp
    have hte : tmpfsEntries cfg.mounts = [] := by
      rw [Bool.and_eq_true] at hemp
      cases ht : cfg.mounts.tmpfs with
      | nil => simp [tmpfsEntries, ht]
      | cons a b => rw [ht] at hemp; simp [List.isEmpty] at hemp
    exact ⟨fun k _ => rfl, fun xs hxs => by rw [hve, hte, List.append_nil, List.append_nil, hxs]⟩
  · split at h
    · rename_i xs0 heq
      injection h with h
      subst h
      refine ⟨fun k hk => ymGet_ymSet_ne _ _ _ _ (Ne.symm hk), ?_⟩
      intro xs hxs
      rw [hxs] at heq
      simp only [Option.getD] at heq
      injection heq with heq
      subst heq
      exact ymGet_ymSet_same _ _ _
    all_goals cases h

theorem adjustHostname_preserves (cfg : FirstBootCfg) (m : List (String × Yaml))
    (k : String) (h1 : k ≠ "preserve_hostname") (h2 : k ≠ "prefer_fqdn_over_hostname")
    (h3 : k ≠ "hostname") : ymGet (adjustHostname cfg m) k = ymGet m k := by
  unfold adjustHostname
  split
  · rfl
  · rw [ymGet_ymSet_ne _ _ _ _ (Ne.symm h3), ymGet_ymSet_ne _ _ _ _ (Ne.symm h2),
        ymGet_ymSet_ne _ _ _ _ (Ne.symm h1)]

/-- The `ssh_authorized_keys` list of a user document (empty when absent; the
code errors out when it is present but not a sequence). -/
def origSshKeys (m : List (String × Yaml)) : List Yaml :=
  match ymGet m "ssh_authorized_keys" with
  | some (.seq ks) => ks
  | _ => []

theorem origSshKeys_congr (a b : List (String × Yaml))
    (h : ymGet a "ssh_authorized_keys" = ymGet b "ssh_authorized_keys") :
    origSshKeys a = origSshKeys b := by
  unfold origSshKeys
  rw [h]

theorem adjustSshKeys_spec (cfg : FirstBootCfg) (m m4 : List (String × Yaml))
    (h : adjustSshKeys cfg m = .ok m4) :
    (∀ k, k ≠ "ssh_authorized_keys" → ymGet m4 k = ymGet m k) ∧
    ymGet m4 "ssh_authorized_keys" =
      some (.seq (origSshKeys m ++ [.str cfg.containerPublicKey])) := by
  unfold adjustSshKeys at h
  split at h
  · rename_i ks heq
    injection h with h
    subst h
    refine ⟨fun k hk => ymGet_ymSet_ne _ _ _ _ (Ne.symm hk), ?_⟩
    have hks : origSshKeys m = ks := by
      cases hg : ymGet m "ssh_authorized_keys" with
      | none =>
        rw [hg] at heq
        have e : Yaml.seq [] = Yaml.seq ks := heq
        injection e with e2
        unfold origSshKeys
        rw [hg]
        exact e2
      | some y =>
        rw [hg] at heq
        have e : y = Yaml.seq ks := heq
        subst e
        unfold origSshKeys
        rw [hg]
    rw [hks]
    exact ymGet_ymSet_same _ _ _
  all_goals cases h

theorem adjustRuncmdWriteFiles_preserves (cfg : FirstBootCfg)
    (m m5 : List (String × Yaml)) (h : adjustRuncmdWriteFiles cfg m = .ok m5)
    (k : String) (h1 : k ≠ "runcmd") (h2 : k ≠ "write_files") :
    ymGet m5 k = ymGet m k := by
  simp only [adjustRuncmdWriteFiles] at h
  split at h
  · cases h
  · rename_i m1 hstep
    have hm1 : ymGet m1 k = ymGet m k := by
      split at hstep
      · injection hstep with e
        subst e
        rfl
      · split at hstep
        · injection hstep with e
          subst e
          exact ymGet_ymSet_ne _ _ _ _ (Ne.symm h1)
        all_goals cases hstep
    have hm5 : ymGet m5 k = ymGet m1 k := by
      split at h
      · injection h with e
        subst e
        rfl
      · split at h
        · injection h with e
          subst e
          exact ymGet_ymSet_ne _ _ _ _ (Ne.symm h2)
        all_goals cases h
    rw [hm5, hm1]

/-- C5: for every user-supplied cloud-config document (a mapping) whose
`mounts` entry is a list, a successful run of the user-data adjustment yields
a document whose `mounts` list is the original list with the generated
virtiofs entries (in virtiofs-list order) followed by the generated tmpfs
entries appended, and whose `ssh_authorized_keys` list is the original list
plus exactly one new entry equal to the supplied container public key. -/
theorem adjustUserData_mounts_sshKeys (cfg : FirstBootCfg)
    (m : List (String × Yaml)) (out : Yaml) (origMounts : List Yaml)
    (hok : adjustUserData cfg (.map m) = .ok out)
    (hm : ymGet m "mounts" = some (.seq origMounts)) :
    ∃ m5, out = .map m5 ∧
      ymGet m5 "mounts" =
        some (.seq (origMounts ++ virtiofsEntries cfg.mounts ++ tmpfsEntries cfg.mounts)) ∧
      ymGet m5 "ssh_authorized_keys" =
        some (.seq (origSshKeys m ++ [.str cfg.containerPublicKey])) := by
  simp only [adjustUserData] at hok
  split at hok
  · cases hok
  · rename_i m1 h1
    split at hok
    · cases hok
    · rename_i m2 h2
      split at hok
      · cases hok
      · rename_i m4 h4
        split at hok
        · cases hok
        · rename_i m5 h5
          injection hok with hok
          subst hok
          refine ⟨m5, rfl, ?_, ?_⟩
          · have hp := adjustPassword_preserves cfg m m1 h1 "mounts"
              (by decide) (by decide)
            have hmounts2 := (adjustMounts_spec cfg m1 m2 h2).2 origMounts
              (by rw [hp]; exact hm)
            have hh := adjustHostname_preserves cfg m2 "mounts"
              (by decide) (by decide) (by decide)
            have hs := (adjustSshKeys_spec cfg (adjustHostname cfg m2) m4 h4).1
              "mounts" (by decide)
            have hr := adjustRuncmdWriteFiles_preserves cfg m4 m5 h5 "mounts"
              (by decide) (by decide)
            rw [hr, hs, hh, hmounts2]
          · have hp := adjustPassword_preserves cfg m m1 h1 "ssh_authorized_keys"
              (by decide) (by decide)
            have hm2 := (adjustMounts_spec cfg m1 m2 h2).1 "ssh_authorized_keys"
              (by decide)
            have hh := adjustHostname_preserves cfg m2 "ssh_authorized_keys"
              (by decide) (by decide) (by decide)
            have hkeys := (adjustSshKeys_spec cfg (adjustHostname cfg m2) m4 h4).2
            have hr := adjustRuncmdWriteFiles_preserves cfg m4 m5 h5
              "ssh_authorized_keys" (by decide) (by decide)
            have hcong : origSshKeys (adjustHostname cfg m2) = origSshKeys m := by
              apply origSshKeys_congr
              rw [hh, hm2, hp]
            rw [hr, hkeys, hcong]

/-- Concrete inputs for the C5 witness: one virtiofs share and one tmpfs, a
user document with an existing `mounts` list and an existing key. -/
def exFbCfg : FirstBootCfg :=
  ⟨none, "PUBKEY", none,
   ⟨[⟨virtiofsContainerPath 0, absPath ["data"]⟩], [⟨absPath ["tmp"]⟩], []⟩⟩

def exUserDoc : List (String × Yaml) :=
  [("mounts", .seq [.str "orig-entry"]),
   ("ssh_authorized_keys", .seq [.str "user-key"])]

def exOutDoc : Yaml :=
  match adjustUserData exFbCfg (.map exUserDoc) with
  | .ok y => y
  | .error _ => .null

theorem adjustUserData_mounts_sshKeys_witness :
    ∃ m5, exOutDoc = Yaml.map m5 ∧
      ymGet m5 "mounts" =
        some (.seq ([Yaml.str "orig-entry"] ++ virtiofsEntries exFbCfg.mounts ++
          tmpfsEntries exFbCfg.mounts)) ∧
      ymGet m5 "ssh_authorized_keys" =
        some (.seq (origSshKeys exUserDoc ++ [.str exFbCfg.containerPublicKey])) :=
  adjustUserData_mounts_sshKeys exFbCfg exUserDoc exOutDoc [Yaml.str "orig-entry"]
    rfl rfl


/-- C8, counterexample to the claim as stated: an EMPTY `user-data` file does
not start with the `#cloud-config` shebang line, yet `apply_to_cloud_init_config`
does not fail -- `lines().next()` is `None` for an empty file, so the shebang
check is skipped entirely and the run succeeds. -/
theorem cloudInit_shebang_counterexample :
    firstLine? "" = none ∧
    applyToCloudInitConfig ⟨none, "PUBKEY", none, ⟨[], [], []⟩⟩
        (fun _ => some Yaml.null) (some ⟨true, true, ""⟩) =
      .ok (.map [("ssh_authorized_keys", .seq [.str "PUBKEY"])]) := by
  exact ⟨rfl, rfl⟩

/-- C8 (amended): with a user base config directory, `apply_to_cloud_init_config`
fails with a "missing mandatory config file" error unless `meta-data` and
`user-data` are regular files, and fails with the shebang error -- whose
message names the expected `#cloud-config` content -- whenever the `user-data`
file is NONEMPTY and its first line, after trimming whitespace, is not exactly
`#cloud-config`; an empty `user-data` file is accepted. -/
theorem cloudInit_config_errors :
    (∀ (cfg : FirstBootCfg) (parse : String → Option Yaml) (d : CloudInitDir),
      d.metaDataIsFile = false →
      applyToCloudInitConfig cfg parse (some d) =
        .error "missing mandatory config file meta-data") ∧
    (∀ (cfg : FirstBootCfg) (parse : String → Option Yaml) (d : CloudInitDir),
      d.metaDataIsFile = true → d.userDataIsFile = false →
      applyToCloudInitConfig cfg parse (some d) =
        .error "missing mandatory config file user-data") ∧
    (∀ (cfg : FirstBootCfg) (parse : String → Option Yaml) (d : CloudInitDir) (l : String),
      d.metaDataIsFile = true → d.userDataIsFile = true →
      firstLine? d.userDataContent = some l → strTrim l ≠ "#cloud-config" →
      applyToCloudInitConfig cfg parse (some d) = .error shebangErrMsg) ∧
    strContains shebangErrMsg "#cloud-config" = true := by
  refine ⟨?_, ?_, ?_, by decide⟩
  · intro cfg parse d hmd
    simp [applyToCloudInitConfig, loadUserData, hmd]
  · intro cfg parse d hmd hud
    simp [applyToCloudInitConfig, loadUserData, hmd, hud]
  · intro cfg parse d l hmd hud hfl htrim
    simp only [applyToCloudInitConfig, loadUserData, hmd, hud, Bool.not_true,
      Bool.false_eq_true, if_false, hfl]
    rw [if_neg htrim]

theorem cloudInit_config_errors_witness :
    ((⟨true, true, "hello world"⟩ : CloudInitDir).metaDataIsFile = true ∧
     (⟨true, true, "hello world"⟩ : CloudInitDir).userDataIsFile = true ∧
     firstLine? "hello world" = some "hello world" ∧
     strTrim "hello world" ≠ "#cloud-config") ∧
    applyToCloudInitConfig ⟨none, "PUBKEY", none, ⟨[], [], []⟩⟩
        (fun _ => some Yaml.null) (some ⟨true, true, "hello world"⟩) =
      .error shebangErrMsg :=
  ⟨⟨rfl, rfl, by decide, by decide⟩,
   cloudInit_config_errors.2.2.1 ⟨none, "PUBKEY", none, ⟨[], [], []⟩⟩
     (fun _ => some Yaml.null) ⟨true, true, "hello world"⟩ "hello world"
     rfl rfl (by decide) (by decide)⟩


/-! ## C4: libvirt XML overlay merge
(`merge_overlays` in `src/commands/create/domain.rs`).  `minidom` elements are
modelled structurally: a name, a namespace, an insertion-ordered attribute
list (`set_attr` replaces an existing attribute in place, else appends) and a
node list of child elements and text nodes.  The recursive `merge` is given an
explicit recursion-depth budget `fuel` (it recurses along matched child
elements, so any fuel at least the height of the base tree suffices);
exhausting the budget yields `none`. -/

mutual
inductive XNode where
  | elem : XElement → XNode
  | text : String → XNode
inductive XElement where
  | mk : String → String → List (String × String) → List XNode → XElement
end

def XElement.name : XElement → String
  | ⟨n, _, _, _⟩ => n

def XElement.ns : XElement → String
  | ⟨_, n, _, _⟩ => n

def XElement.attrs : XElement → List (String × String)
  | ⟨_, _, a, _⟩ => a

def XElement.nodes : XElement → List XNode
  | ⟨_, _, _, cs⟩ => cs

/-- Concatenated immediate text-node content (`minidom` `Element::text`). -/
def nodesText : List XNode → String
  | [] => ""
  | .elem _ :: rest => nodesText rest
  | .text s :: rest => s ++ nodesText rest

def XElement.text (e : XElement) : String := nodesText e.nodes

/-- First child element with the given tag and namespace
(`minidom` `Element::get_child`). -/
def findChild : List XNode → String → String → Option XElement
  | [], _, _ => none
  | .elem c :: rest, nm, nsp =>
    if c.name = nm ∧ c.ns = nsp then some c else findChild rest nm nsp
  | .text _ :: rest, nm, nsp => findChild rest nm nsp

def XElement.getChild (e : XElement) (nm nsp : String) : Option XElement :=
  findChild e.nodes nm nsp

def XElement.hasChild (e : XElement) (nm nsp : String) : Bool :=
  (e.getChild nm nsp).isSome

/-- `minidom` `set_attr`: replace an existing attribute in place, else
append. -/
def setAttr : List (String × String) → String → String → List (String × String)
  | [], k, v => [(k, v)]
  | a :: rest, k, v => if a.1 = k then (k, v) :: rest else a :: setAttr rest k v

/-- The attribute list built by chaining `.attr` calls on an empty builder,
as `merge` does with `base.attrs().chain(overlay.attrs())`. -/
def chainAttrs (l : List (String × String)) : List (String × String) :=
  l.foldl (fun acc kv => setAttr acc kv.1 kv.2) []

/-- First-occurrence attribute lookup (`minidom` `Element::attr`). -/
def attrLookup : List (String × String) → String → Option String
  | [], _ => none
  | a :: rest, k => if a.1 = k then some a.2 else attrLookup rest k

/-- Last-occurrence lookup: the value the final `.attr` call for key `k`
leaves behind. -/
def lookupLast : List (String × String) → String → Option String
  | [], _ => none
  | a :: rest, k =>
    (lookupLast rest k).orElse (fun _ => if a.1 = k then some a.2 else none)

/-- The overlay nodes appended after the merged base nodes: overlay child
elements with no same-named base child, plus the overlay text nodes when the
overlay has non-blank text. -/
def overlayExtraNodes (base : XElement) (oht : Bool) : List XNode → List XNode
  | [] => []
  | .elem c :: rest =>
    if base.hasChild c.name c.ns then overlayExtraNodes base oht rest
    else .elem c :: overlayExtraNodes base oht rest
  | .text s :: rest =>
    if oht then .text s :: overlayExtraNodes base oht rest
    else overlayExtraNodes base oht rest

/-- The merged images of the base nodes: matched child elements are merged by
`mrg`, unmatched base children kept, base text kept only when the overlay has
no non-blank text. -/
def mergeBaseNodes (mrg : XElement → XElement → Option XElement)
    (overlay : XElement) (oht : Bool) : List XNode → Option (List XNode)
  | [] => some []
  | .elem c :: rest =>
    match (match overlay.getChild c.name c.ns with
           | some oc => mrg c oc
           | none => some c),
          mergeBaseNodes mrg overlay oht rest with
    | some nc, some r => some (.elem nc :: r)
    | _, _ => none
  | .text s :: rest =>
    match mergeBaseNodes mrg overlay oht rest with
    | some r => some (if oht then r else .text s :: r)
    | none => none

/-- `merge`: structural merge of an overlay element into a base element. -/
def mergeEl : Nat → XElement → XElement → Option XElement
  | 0, _, _ => none
  | Nat.succ f, base, overlay =>
    match mergeBaseNodes (mergeEl f) overlay (strTrim overlay.text != "")
        base.nodes with
    | none => none
    | some bns =>
      some (XElement.mk base.name base.ns (chainAttrs (base.attrs ++ overlay.attrs))
        (bns ++ overlayExtraNodes base (strTrim overlay.text != "") overlay.nodes))

/-- `merge_overlays`: fold the overlays into the base document, requiring each
overlay root to be named `domain` with no namespace. -/
def mergeOverlays (fuel : Nat) (base : XElement) : List XElement → Except String XElement
  | [] => .ok base
  | o :: rest =>
    if o.name = "domain" ∧ o.ns = "" then
      match mergeEl fuel base o with
      | none => .error "merge recursion limit exceeded"
      | some b2 => mergeOverlays fuel b2 rest
    else .error "libvirt XML root node must be named domain and have no namespace"


theorem strAppendEmpty (s : String) : s ++ "" = s := by
  cases s with
  | mk data => exact congrArg String.mk (List.append_nil data)

theorem strAppendAssoc (a b c : String) : a ++ b ++ c = a ++ (b ++ c) := by
  cases a with
  | mk da =>
    cases b with
    | mk db =>
      cases c with
      | mk dc => exact congrArg String.mk (List.append_assoc da db dc)

theorem nodesText_append : ∀ a b : List XNode,
    nodesText (a ++ b) = nodesText a ++ nodesText b := by
  intro a b
  induction a with
  | nil => rfl
  | cons n rest ih =>
    cases n with
    | elem c => exact ih
    | text s2 =>
      show s2 ++ nodesText (rest ++ b) = s2 ++ nodesText rest ++ nodesText b
      rw [ih, strAppendAssoc]

theorem mergeBaseNodes_text_true (mrg : XElement → XElement → Option XElement)
    (overlay : XElement) :
    ∀ (ns2 : List XNode) (r : List XNode),
      mergeBaseNodes mrg overlay true ns2 = some r → nodesText r = "" := by
  intro ns2
  induction ns2 with
  | nil =>
    intro r h
    injection h with h
    subst h
    rfl
  | cons n rest ih =>
    intro r h
    cases n with
    | elem c =>
      rw [mergeBaseNodes] at h
      cases hnc : (match overlay.getChild c.name c.ns with
                   | some oc => mrg c oc
                   | none => some c) with
      | none => rw [hnc] at h; cases h
      | some nc =>
        rw [hnc] at h
        cases hrec : mergeBaseNodes mrg overlay true rest with
        | none => rw [hrec] at h; cases h
        | some r2 =>
          rw [hrec] at h
          injection h with h
          subst h
          exact ih r2 hrec
    | text s2 =>
      rw [mergeBaseNodes] at h
      cases hrec : mergeBaseNodes mrg overlay true rest with
      | none => rw [hrec] at h; cases h
      | some r2 =>
        rw [hrec] at h
        injection h with h
        subst h
        exact ih r2 hrec

theorem mergeBaseNodes_text_false (mrg : XElement → XElement → Option XElement)
    (overlay : XElement) :
    ∀ (ns2 : List XNode) (r : List XNode),
      mergeBaseNodes mrg overlay false ns2 = some r → nodesText r = nodesText ns2 := by
  intro ns2
  induction ns2 with
  | nil =>
    intro r h
    injection h with h
    subst h
    rfl
  | cons n rest ih =>
    intro r h
    cases n with
    | elem c =>
      rw [mergeBaseNodes] at h
      cases hnc : (match overlay.getChild c.name c.ns with
                   | some oc => mrg c oc
                   | none => some c) with
      | none => rw [hnc] at h; cases h
      | some nc =>
        rw [hnc] at h
        cases hrec : mergeBaseNodes mrg overlay false rest with
        | none => rw [hrec] at h; cases h
        | some r2 =>
          rw [hrec] at h
          injection h with h
          subst h
          show nodesText r2 = nodesText rest
          exact ih r2 hrec
    | text s2 =>
      rw [mergeBaseNodes] at h
      cases hrec : mergeBaseNodes mrg overlay false rest with
      | none => rw [hrec] at h; cases h
      | some r2 =>
        rw [hrec] at h
        injection h with h
        subst h
        show s2 ++ nodesText r2 = s2 ++ nodesText rest
        rw [ih r2 hrec]

theorem overlayExtraNodes_text_true (base : XElement) :
    ∀ ns2 : List XNode, nodesText (overlayExtraNodes base true ns2) = nodesText ns2 := by
  intro ns2
  induction ns2 with
  | nil => rfl
  | cons n rest ih =>
    cases n with
    | elem c =>
      rw [overlayExtraNodes]
      cases hb : base.hasChild c.name c.ns with
      | true => rw [if_pos rfl]; exact ih
      | false => rw [if_neg Bool.false_ne_true]; exact ih
    | text s2 =>
      rw [overlayExtraNodes, if_pos rfl]
      show s2 ++ nodesText (overlayExtraNodes base true rest) = s2 ++ nodesText rest
      rw [ih]

theorem overlayExtraNodes_text_false (base : XElement) :
    ∀ ns2 : List XNode, nodesText (overlayExtraNodes base false ns2) = "" := by
  intro ns2
  induction ns2 with
  | nil => rfl
  | cons n rest ih =>
    cases n with
    | elem c =>
      rw [overlayExtraNodes]
      cases hb : base.hasChild c.name c.ns with
      | true => rw [if_pos rfl]; exact ih
      | false => rw [if_neg Bool.false_ne_true]; exact ih
    | text s2 =>
      rw [overlayExtraNodes, if_neg Bool.false_ne_true]
      exact ih

theorem mergeEl_text_aux (f : Nat) (b o : XElement) (r : XElement)
    (h : mergeEl (f + 1) b o = some r) :
    (strTrim (XElement.text o) ≠ "" → XElement.text r = XElement.text o) ∧
    (strTrim (XElement.text o) = "" → XElement.text r = XElement.text b) := by
  rw [mergeEl] at h
  by_cases ht : strTrim (XElement.text o) = ""
  · have hbne : (strTrim (XElement.text o) != "") = false := by rw [ht]; rfl
    rw [hbne] at h
    cases hbn : mergeBaseNodes (mergeEl f) o false b.nodes with
    | none => rw [hbn] at h; cases h
    | some bns =>
      rw [hbn] at h
      injection h with h
      subst h
      refine ⟨fun hcon => absurd ht hcon, fun _ => ?_⟩
      show nodesText (bns ++ overlayExtraNodes b false o.nodes) = XElement.text b
      rw [nodesText_append, mergeBaseNodes_text_false (mergeEl f) o b.nodes bns hbn,
          overlayExtraNodes_text_false b o.nodes, strAppendEmpty]
      rfl
  · have hbne : (strTrim (XElement.text o) != "") = true := bne_iff_ne.mpr ht
    rw [hbne] at h
    cases hbn : mergeBaseNodes (mergeEl f) o true b.nodes with
    | none => rw [hbn] at h; cases h
    | some bns =>
      rw [hbn] at h
      injection h with h
      subst h
      refine ⟨fun _ => ?_, fun hcon => absurd hcon ht⟩
      show nodesText (bns ++ overlayExtraNodes b true o.nodes) = XElement.text o
      rw [nodesText_append, mergeBaseNodes_text_true (mergeEl f) o b.nodes bns hbn,
          overlayExtraNodes_text_true b o.nodes]
      rfl

theorem attrLookup_setAttr_same (l : List (String × String)) (k : String) (v : String) :
    attrLookup (setAttr l k v) k = some v := by
  induction l with
  | nil => simp [setAttr, attrLookup]
  | cons a rest ih =>
    by_cases ha : a.1 = k
    · rw [setAttr, if_pos ha, attrLookup, if_pos rfl]
    · rw [setAttr, if_neg ha, attrLookup, if_neg ha, ih]

theorem attrLookup_setAttr_ne (l : List (String × String)) (k k2 : String) (v : String)
    (h : k ≠ k2) : attrLookup (setAttr l k v) k2 = attrLookup l k2 := by
  induction l with
  | nil => simp [setAttr, attrLookup, h]
  | cons a rest ih =>
    by_cases ha : a.1 = k
    · rw [setAttr, if_pos ha, attrLookup, attrLookup]
      have hk2 : ¬(k = k2) := h
      have ha2 : ¬(a.1 = k2) := by rw [ha]; exact hk2
      rw [if_neg hk2, if_neg ha2]
    · rw [setAttr, if_neg ha, attrLookup, attrLookup]
      by_cases ha2 : a.1 = k2
      · rw [if_pos ha2, if_pos ha2]
      · rw [if_neg ha2, if_neg ha2, ih]

theorem chainAttrs_go (l : List (String × String)) :
    ∀ (acc : List (String × String)) (k : String),
      attrLookup (l.foldl (fun acc kv => setAttr acc kv.1 kv.2) acc) k =
        (lookupLast l k).orElse (fun _ => attrLookup acc k) := by
  induction l with
  | nil => intro acc k; rfl
  | cons a rest ih =>
    intro acc k
    rw [List.foldl_cons, ih]
    show (lookupLast rest k).orElse (fun _ => attrLookup (setAttr acc a.1 a.2) k) =
      ((lookupLast rest k).orElse
        (fun _ => if a.1 = k then some a.2 else none)).orElse
        (fun _ => attrLookup acc k)
    cases lookupLast rest k with
    | some v => rfl
    | none =>
      show attrLookup (setAttr acc a.1 a.2) k =
        (if a.1 = k then some a.2 else none).orElse (fun _ => attrLookup acc k)
      by_cases ha : a.1 = k
      · rw [if_pos ha]
        subst ha
        rw [attrLookup_setAttr_same]
        rfl
      · rw [if_neg ha, attrLookup_setAttr_ne acc a.1 k a.2 ha]
        rfl

theorem lookupLast_append (b o : List (String × String)) (k : String) :
    lookupLast (b ++ o) k = (lookupLast o k).orElse (fun _ => lookupLast b k) := by
  induction b with
  | nil =>
    show lookupLast o k = (lookupLast o k).orElse (fun _ => none)
    cases lookupLast o k <;> rfl
  | cons a rest ih =>
    show (lookupLast (rest ++ o) k).orElse (fun _ => if a.1 = k then some a.2 else none) =
      (lookupLast o k).orElse
        (fun _ => (lookupLast rest k).orElse (fun _ => if a.1 = k then some a.2 else none))
    rw [ih]
    cases lookupLast o k <;> rfl

theorem mergeEl_attrs_aux (f : Nat) (b o : XElement) (r : XElement) (k : String)
    (h : mergeEl (f + 1) b o = some r) :
    attrLookup (XElement.attrs r) k =
      (lookupLast (XElement.attrs o) k).orElse
        (fun _ => lookupLast (XElement.attrs b) k) := by
  rw [mergeEl] at h
  cases hbn : mergeBaseNodes (mergeEl f) o (strTrim (XElement.text o) != "")
      b.nodes with
  | none => rw [hbn] at h; cases h
  | some bns =>
    rw [hbn] at h
    injection h with h
    subst h
    show attrLookup (chainAttrs (b.attrs ++ o.attrs)) k = _
    rw [chainAttrs, chainAttrs_go, lookupLast_append]
    cases lookupLast (XElement.attrs o) k with
    | some v => rfl
    | none => cases lookupLast (XElement.attrs b) k <;> rfl

theorem mergeOverlays_badRoot :
    ∀ (overlays : List XElement) (fuel : Nat) (base : XElement),
      (∃ o ∈ overlays, ¬(o.name = "domain" ∧ o.ns = "")) →
      (mergeOverlays fuel base overlays).isOk = false := by
  intro overlays
  induction overlays with
  | nil =>
    intro fuel base h
    obtain ⟨o, ho, _⟩ := h
    cases ho
  | cons o2 rest ih =>
    intro fuel base h
    rw [mergeOverlays]
    by_cases hgood : o2.name = "domain" ∧ o2.ns = ""
    · rw [if_pos hgood]
      cases hm : mergeEl fuel base o2 with
      | none => rfl
      | some b2 =>
        obtain ⟨o, ho, hbad⟩ := h
        rcases List.mem_cons.mp ho with ho | ho
        · subst ho; exact absurd hgood hbad
        · exact ih fuel b2 ⟨o, ho, hbad⟩
    · rw [if_neg hgood]
      rfl

def c4Base : XElement :=
  ⟨"domain", "", [], [.elem ⟨"memory", "", [("unit", "b")], [.text "1000"]⟩]⟩

def c4Overlay : XElement :=
  ⟨"domain", "", [], [.elem ⟨"memory", "", [("unit", "b")], [.text "2000"]⟩,
                      .elem ⟨"cpu", "", [("mode", "host-passthrough")], []⟩]⟩

def c4Expected : XElement :=
  ⟨"domain", "", [], [.elem ⟨"memory", "", [("unit", "b")], [.text "2000"]⟩,
                      .elem ⟨"cpu", "", [("mode", "host-passthrough")], []⟩]⟩

def c4BadOverlay : XElement := ⟨"devices", "", [], []⟩

/-- C4: the libvirt-XML overlay merge is structural.  (1) On the spec example,
merging `<domain><memory unit="b">1000</memory></domain>` with
`<domain><memory unit="b">2000</memory><cpu mode="host-passthrough"/></domain>`
yields `<domain><memory unit="b">2000</memory><cpu mode="host-passthrough"/></domain>`
-- matched children merged recursively with overlay text replacing base text,
unmatched overlay children appended.  (2) `merge_overlays` never succeeds when
some overlay root is not named `domain` with empty namespace.  (3) On any
merged element the text is the overlay text when that is non-blank, else the
base text (never concatenated).  (4) Attribute lookup on a merged element
yields the overlay value when the overlay carries the attribute, else the base
value. -/
theorem mergeOverlays_spec :
    mergeOverlays 2 c4Base [c4Overlay] = .ok c4Expected ∧
    (∀ (overlays : List XElement) (fuel : Nat) (base : XElement),
      (∃ o ∈ overlays, ¬(o.name = "domain" ∧ o.ns = "")) →
      (mergeOverlays fuel base overlays).isOk = false) ∧
    (∀ (f : Nat) (b o r : XElement), mergeEl (f + 1) b o = some r →
      (strTrim (XElement.text o) ≠ "" → XElement.text r = XElement.text o) ∧
      (strTrim (XElement.text o) = "" → XElement.text r = XElement.text b)) ∧
    (∀ (f : Nat) (b o r : XElement) (k : String), mergeEl (f + 1) b o = some r →
      attrLookup (XElement.attrs r) k =
        (lookupLast (XElement.attrs o) k).orElse
          (fun _ => lookupLast (XElement.attrs b) k)) :=
  ⟨rfl, mergeOverlays_badRoot, mergeEl_text_aux, fun f b o r k h => mergeEl_attrs_aux f b o r k h⟩

theorem mergeOverlays_spec_witness :
    (¬(c4BadOverlay.name = "domain" ∧ c4BadOverlay.ns = "") ∧
     (mergeOverlays 1 c4Base [c4BadOverlay]).isOk = false) ∧
    (mergeEl 2 c4Base c4Overlay = some c4Expected ∧
     strTrim (XElement.text c4Overlay) = "" ∧
     XElement.text c4Expected = XElement.text c4Base) ∧
    attrLookup (XElement.attrs c4Expected) "type" =
      (lookupLast (XElement.attrs c4Overlay) "type").orElse
        (fun _ => lookupLast (XElement.attrs c4Base) "type") :=
  ⟨⟨by decide,
    mergeOverlays_spec.2.1 [c4BadOverlay] 1 c4Base
      ⟨c4BadOverlay, List.mem_cons_self _ _, by decide⟩⟩,
   ⟨rfl, rfl,
    (mergeOverlays_spec.2.2.1 1 c4Base c4Overlay c4Expected rfl).2 rfl⟩,
   mergeOverlays_spec.2.2.2 1 c4Base c4Overlay c4Expected "type" rfl⟩

end CrunVm
